import Mathlib

/-
Verification of the particle-life simulation kernel (simulation.ts /
spatial-hash.ts) against its specification.

The embedding models JavaScript numbers as an inductive type `JNum`
(finite rational, NaN, +Infinity, -Infinity; the distinction between
0 and -0 is not tracked, and binary-floating-point rounding is idealised
to exact rational arithmetic).  `Math.sqrt` on nonnegative finite values
is not rational, so the whole development is parameterised by an
approximation `sq : ℚ → ℚ`; every theorem below holds for all such
functions unless it evaluates a concrete run, in which case a concrete
approximation is supplied.

Particles are identified by their index in the simulation's particle
array: JavaScript object identity (`other === particle`) corresponds
exactly to index equality, and the spatial hash stores indices.

Fallible JavaScript (a thrown TypeError) is modelled with `Except Unit`.
-/

namespace ParticleLife

/-- A JavaScript number: a finite rational, NaN, or a signed infinity. -/
inductive JNum where
  | fin (q : ℚ)
  | nan
  | inf
  | ninf
deriving DecidableEq, Repr

namespace JNum

/-- `Number.isFinite`. -/
def isFin : JNum → Bool
  | fin _ => true
  | _ => false

/-- JS addition. -/
def add : JNum → JNum → JNum
  | fin a, fin b => fin (a + b)
  | nan, _ => nan
  | _, nan => nan
  | inf, ninf => nan
  | ninf, inf => nan
  | inf, _ => inf
  | _, inf => inf
  | ninf, _ => ninf
  | _, ninf => ninf

/-- JS unary minus. -/
def neg : JNum → JNum
  | fin a => fin (-a)
  | nan => nan
  | inf => ninf
  | ninf => inf

/-- JS subtraction. -/
def sub (a b : JNum) : JNum := add a (neg b)

/-- JS multiplication. -/
def mul : JNum → JNum → JNum
  | fin a, fin b => fin (a * b)
  | nan, _ => nan
  | _, nan => nan
  | inf, inf => inf
  | inf, ninf => ninf
  | ninf, inf => ninf
  | ninf, ninf => inf
  | inf, fin b => if b = 0 then nan else if 0 < b then inf else ninf
  | fin a, inf => if a = 0 then nan else if 0 < a then inf else ninf
  | ninf, fin b => if b = 0 then nan else if 0 < b then ninf else inf
  | fin a, ninf => if a = 0 then nan else if 0 < a then ninf else inf

/-- JS division. -/
def div : JNum → JNum → JNum
  | nan, _ => nan
  | _, nan => nan
  | fin a, fin b =>
      if b = 0 then (if a = 0 then nan else if 0 < a then inf else ninf)
      else fin (a / b)
  | fin _, inf => fin 0
  | fin _, ninf => fin 0
  | inf, fin b => if 0 ≤ b then inf else ninf
  | ninf, fin b => if 0 ≤ b then ninf else inf
  | inf, _ => nan
  | ninf, _ => nan

/-- Truncation toward zero of a rational (JS integer conversion core). -/
def qtrunc (q : ℚ) : ℤ := if 0 ≤ q then ⌊q⌋ else ⌈q⌉

/-- JS remainder operator `%` (sign follows the dividend). -/
def mod : JNum → JNum → JNum
  | nan, _ => nan
  | _, nan => nan
  | fin a, fin b => if b = 0 then nan else fin (a - b * (qtrunc (a / b) : ℚ))
  | fin a, inf => fin a
  | fin a, ninf => fin a
  | inf, _ => nan
  | ninf, _ => nan

/-- `Math.abs`. -/
def abs : JNum → JNum
  | fin a => fin |a|
  | nan => nan
  | inf => inf
  | ninf => inf

/-- `Math.floor`. -/
def floor : JNum → JNum
  | fin a => fin (⌊a⌋ : ℚ)
  | nan => nan
  | inf => inf
  | ninf => ninf

/-- `Math.ceil`. -/
def ceil : JNum → JNum
  | fin a => fin (⌈a⌉ : ℚ)
  | nan => nan
  | inf => inf
  | ninf => ninf

/-- JS `<` (false whenever an operand is NaN). -/
def lt : JNum → JNum → Bool
  | fin a, fin b => decide (a < b)
  | nan, _ => false
  | _, nan => false
  | inf, _ => false
  | ninf, ninf => false
  | ninf, _ => true
  | _, inf => true
  | _, ninf => false

/-- JS `<=` (false whenever an operand is NaN). -/
def le : JNum → JNum → Bool
  | fin a, fin b => decide (a ≤ b)
  | nan, _ => false
  | _, nan => false
  | inf, inf => true
  | inf, _ => false
  | ninf, _ => true
  | _, inf => true
  | _, ninf => false

/-- JS `>`. -/
def gt (a b : JNum) : Bool := lt b a

/-- JS `>=`. -/
def ge (a b : JNum) : Bool := le b a

/-- `Math.max` (NaN-propagating). -/
def jmax : JNum → JNum → JNum
  | nan, _ => nan
  | _, nan => nan
  | a, b => if lt a b then b else a

/-- `Math.min` (NaN-propagating). -/
def jmin : JNum → JNum → JNum
  | nan, _ => nan
  | _, nan => nan
  | a, b => if lt b a then b else a

/-- `Math.sqrt`, parameterised by a rational approximation `sq` used on
nonnegative finite inputs. -/
def sqrt (sq : ℚ → ℚ) : JNum → JNum
  | fin a => if a < 0 then nan else fin (sq a)
  | nan => nan
  | inf => inf
  | ninf => nan

instance : Add JNum := ⟨add⟩
instance : Sub JNum := ⟨sub⟩
instance : Mul JNum := ⟨mul⟩
instance : Div JNum := ⟨div⟩
instance : Neg JNum := ⟨neg⟩
instance (n : ℕ) : OfNat JNum n := ⟨fin (OfNat.ofNat n)⟩

/-- Low 16 bits of the JS int32 conversion used by the spatial-hash key
packing `(c & 0xffff)`; NaN and infinities convert to 0. -/
def low16 : JNum → ℤ
  | fin a => (qtrunc a).emod 65536
  | _ => 0

end JNum

export JNum (fin nan inf ninf)

/-- The number of species, `PARTICLE_TYPES = PARTICLE_COLORS.length`. -/
def PARTICLE_TYPES : ℕ := 6

/-- A particle record.  `type` is a JS number, as in the source. -/
structure Particle where
  x : JNum
  y : JNum
  vx : JNum
  vy : JNum
  type : JNum
deriving DecidableEq, Repr

instance : Inhabited Particle := ⟨⟨0, 0, 0, 0, 0⟩⟩

/-- `colorMode` field of the configuration. -/
inductive ColorMode where
  | typeMode
  | velocity
  | density
deriving DecidableEq, Repr

/-- The simulation configuration (kernel-relevant fields; cosmetic
rendering fields such as trail intensity and glow do not enter the
kernel and are omitted).  `particleCount` is kept as a natural number. -/
structure SimulationConfig where
  particleCount : ℕ
  speed : JNum
  friction : JNum
  maxRadius : JNum
  minRadius : JNum
  forceStrength : JNum
  rules : List (List JNum)
  colorMode : ColorMode
  mutationEnabled : Bool
deriving DecidableEq, Repr

/-- The pointer-force descriptor. -/
structure MouseForce where
  active : Bool
  x : JNum
  y : JNum
  radius : JNum
  strength : JNum
deriving DecidableEq, Repr

/-- JS array indexing `l[idx]` by a JS number: defined (`some`) exactly
for an integral index within bounds, `none` (JS `undefined`) otherwise. -/
def listGetJ (l : List α) (idx : JNum) : Option α :=
  match idx with
  | fin q => if q.den = 1 ∧ 0 ≤ q.num then l.get? q.num.toNat else none
  | _ => none

/-! ## Spatial hash (spatial-hash.ts)

The grid maps packed cell keys to buckets of particle indices; storing
indices models JS object identity (`other === particle` is index
equality).  The JS key `((cx & 0xffff) << 16) | (cy & 0xffff)` is an
injective encoding of the pair of low 16-bit cell coordinates, which we
encode equivalently as `low16 cx * 65536 + low16 cy`; grid keys are only
ever compared for equality, so any injective encoding of the same pair
is observationally identical. -/

/-- Configuration of the spatial hash: `cellSize` (clamped to at least 1
by the constructor) and the toroidal cell counts set by `setWorldSize`. -/
structure SpatialHashCfg where
  cellSize : JNum
  cellsW : JNum
  cellsH : JNum
deriving DecidableEq, Repr

/-- `new SpatialHash(cellSize)` followed by `setWorldSize(w, h)`:
`cellSize` is clamped to at least 1 and the cell counts are
`max(1, ceil(dim / cellSize))`. -/
def mkHash (cellSize w h : JNum) : SpatialHashCfg :=
  let cs := JNum.jmax cellSize 1
  { cellSize := cs
    cellsW := JNum.jmax 1 (JNum.ceil (w / cs))
    cellsH := JNum.jmax 1 (JNum.ceil (h / cs)) }

/-- Bucket storage: association list from packed key to bucket
(insertion-ordered list of particle indices). -/
abbrev Grid := List (ℤ × List ℕ)

/-- Packed bucket key (see module comment). -/
def cellKey (cx cy : JNum) : ℤ := JNum.low16 cx * 65536 + JNum.low16 cy

/-- Append index `i` to the bucket with key `k` (creating it if absent),
as `Map.get(k).push(p)` does. -/
def gridAdd (g : Grid) (k : ℤ) (i : ℕ) : Grid :=
  match g with
  | [] => [(k, [i])]
  | (k₀, l) :: rest =>
      if k₀ = k then (k₀, l ++ [i]) :: rest else (k₀, l) :: gridAdd rest k i

/-- `grid.get(key)`, the empty bucket when the key is absent. -/
def gridGet (g : Grid) (k : ℤ) : List ℕ :=
  ((g.find? (fun e => e.1 = k)).map Prod.snd).getD []

/-- `add(p)`: bucket particle `i` by `floor(x / cellSize), floor(y / cellSize)`. -/
def hashAdd (hc : SpatialHashCfg) (g : Grid) (i : ℕ) (p : Particle) : Grid :=
  gridAdd g (cellKey (JNum.floor (p.x / hc.cellSize)) (JNum.floor (p.y / hc.cellSize))) i

/-- `clear()` followed by adding every particle in array order. -/
def buildGrid (hc : SpatialHashCfg) (ps : List Particle) : Grid :=
  (ps.enum).foldl (fun g ip => hashAdd hc g ip.1 ip.2) []

/-- Toroidal wrap of one cell coordinate:
`if (c < 0) c += cells; else if (c >= cells) c -= cells;`. -/
def wrapCell (c cells : JNum) : JNum :=
  if JNum.lt c 0 then c + cells else if JNum.ge c cells then c - cells else c

/-- `getNearby(x, y)`: concatenation of the 3x3 block of buckets around
the query cell, with toroidal wrap of the cell coordinates, in the
source's `dx`-outer `dy`-inner order. -/
def getNearby (hc : SpatialHashCfg) (g : Grid) (x y : JNum) : List ℕ :=
  let cx := JNum.floor (x / hc.cellSize)
  let cy := JNum.floor (y / hc.cellSize)
  ([-1, 0, 1] : List ℚ).flatMap (fun dx =>
    ([-1, 0, 1] : List ℚ).flatMap (fun dy =>
      gridGet g (cellKey (wrapCell (cx + fin dx) hc.cellsW)
                         (wrapCell (cy + fin dy) hc.cellsH))))

/-! ## Force law (simulation.ts, `particleLifeForce`) -/

/-- The standard particle-life force function, exactly as in the source:
repulsive linear ramp below `beta`, triangular attraction bump between
`beta` and 1, zero beyond 1. -/
def particleLifeForce (normalizedDist attraction beta : JNum) : JNum :=
  if JNum.lt normalizedDist beta then
    normalizedDist / beta - 1
  else if JNum.lt normalizedDist 1 then
    attraction * (fin 1 - JNum.abs (fin 2 * normalizedDist - 1 - beta) / (fin 1 - beta))
  else fin 0

/-! ## Simulation state and step (simulation.ts, `ParticleSimulation`)

Wall-clock FPS bookkeeping (`performance.now`) is not modelled; it never
feeds back into any kernel computation.  `Math.random()` is modelled by
an explicit stream `rng : ℕ → ℚ` consumed at a cursor `rngIdx` carried in
the state. -/

/-- The mutable kernel state of a `ParticleSimulation`. -/
structure SimState where
  particles : List Particle
  config : SimulationConfig
  width : JNum
  height : JNum
  hash : Option SpatialHashCfg
  frameCount : ℕ
  mouse : MouseForce
  energyHistory : List (List JNum)
  energySampleCounter : ℕ
  maxSpeedObserved : JNum
  neighborCounts : List ℚ
  mutCounter : ℕ
  rngIdx : ℕ
deriving DecidableEq, Repr

/-- Per-step derived scalars, computed once at the top of `update`. -/
structure StepCtx where
  w : JNum
  h : JNum
  halfW : JNum
  halfH : JNum
  rSq : JNum
  invR : JNum
  beta : JNum
  dt : JNum
  fs : JNum
  maxVel : JNum
  friction : JNum
  rules : List (List JNum)
  mfActive : Bool
  mfx : JNum
  mfy : JNum
  mfRadius : JNum
  mfRadSq : JNum
  mfStrength : JNum
  trackDensity : Bool
deriving Repr

/-- Toroidal wrap of a displacement component:
`if (dx > halfW) dx -= w; else if (dx < -halfW) dx += w;`. -/
def wrapDelta (d w half : JNum) : JNum :=
  if JNum.gt d half then d - w else if JNum.lt d (-half) then d + w else d

/-- Inner loop of the force accumulation for one particle: walk the
neighbourhood indices, skip self (`other === p`), apply the range window,
and accumulate the pairwise force.  The JS `TypeError` thrown by
`pRules[other.type]` when `rules[p.type]` is `undefined` is the `error`
case; an out-of-range `other.type` yields `undefined` which only flows
into arithmetic and therefore behaves as NaN. -/
def forceLoop (sq : ℚ → ℚ) (ctx : StepCtx) (ps : List Particle) (i : ℕ) (p : Particle)
    (pRules : Option (List JNum)) :
    List ℕ → JNum × JNum × ℕ → Except Unit (JNum × JNum × ℕ)
  | [], acc => .ok acc
  | j :: rest, acc =>
    if j = i then forceLoop sq ctx ps i p pRules rest acc
    else
      let q := ps.getD j default
      let dx := wrapDelta (q.x - p.x) ctx.w ctx.halfW
      let dy := wrapDelta (q.y - p.y) ctx.h ctx.halfH
      let dSq := dx * dx + dy * dy
      if JNum.ge dSq ctx.rSq || JNum.lt dSq (fin (1/100)) then
        forceLoop sq ctx ps i p pRules rest acc
      else
        match pRules with
        | none => .error ()
        | some row =>
          let d := JNum.sqrt sq dSq
          let nd := d * ctx.invR
          let attraction := (listGetJ row q.type).getD nan
          let f := particleLifeForce nd attraction ctx.beta * ctx.fs
          forceLoop sq ctx ps i p pRules rest
            (acc.1 + (dx / d) * f, acc.2.1 + (dy / d) * f, acc.2.2 + 1)

/-- Force computation for particle `i`: neighbourhood query, pairwise
accumulation, optional pointer force, then the semi-implicit velocity
update `v = v * (1 - friction) + f * dt`.  Returns the particle with its
new velocity and its neighbour count. -/
def forceOne (sq : ℚ → ℚ) (ctx : StepCtx) (ps : List Particle) (grid : Grid)
    (hc : SpatialHashCfg) (i : ℕ) (p : Particle) : Except Unit (Particle × ℕ) := do
  let nearby := getNearby hc grid p.x p.y
  let pRules := listGetJ ctx.rules p.type
  let (fx0, fy0, cnt) ← forceLoop sq ctx ps i p pRules nearby (0, 0, 0)
  let fxy :=
    if ctx.mfActive then
      let mdx := ctx.mfx - p.x
      let mdy := ctx.mfy - p.y
      let mdSq := mdx * mdx + mdy * mdy
      if JNum.lt mdSq ctx.mfRadSq && JNum.gt mdSq 1 then
        let md := JNum.sqrt sq mdSq
        let falloff := fin 1 - md / ctx.mfRadius
        let ms := ctx.mfStrength * falloff * 3
        (fx0 + (mdx / md) * ms, fy0 + (mdy / md) * ms)
      else (fx0, fy0)
    else (fx0, fy0)
  .ok ({ p with vx := p.vx * (fin 1 - ctx.friction) + fxy.1 * ctx.dt,
                vy := p.vy * (fin 1 - ctx.friction) + fxy.2 * ctx.dt }, cnt)

/-- The force phase over the whole (indexed) particle list. -/
def forcePhase (sq : ℚ → ℚ) (ctx : StepCtx) (ps : List Particle) (grid : Grid)
    (hc : SpatialHashCfg) : List (ℕ × Particle) → Except Unit (List (Particle × ℕ))
  | [] => .ok []
  | (i, p) :: rest => do
      let pc ← forceOne sq ctx ps grid hc i p
      let l ← forcePhase sq ctx ps grid hc rest
      .ok (pc :: l)

/-- Position wrap `((x % w) + w) % w`. -/
def wrapPos (x w : JNum) : JNum := JNum.mod (JNum.mod x w + w) w

/-- The velocity clamp
`if (v > maxVel) v = maxVel; else if (v < -maxVel) v = -maxVel;`. -/
def clampVel (v maxVel : JNum) : JNum :=
  if JNum.gt v maxVel then maxVel
  else if JNum.lt v (-maxVel) then -maxVel else v

/-- The per-particle safety/move pass: velocity clamp, non-finite
velocity zeroing, position integration, non-finite position heal
(uniform-random reposition with zero velocity, skipping the wrap), else
toroidal position wrap.  Returns the moved particle, the advanced random
cursor, and the squared speed used for max-speed tracking. -/
def moveOne (rng : ℕ → ℚ) (w h maxVel : JNum) (idx : ℕ) (p : Particle) :
    Particle × ℕ × JNum :=
  let vx1 := clampVel p.vx maxVel
  let vy1 := clampVel p.vy maxVel
  let fine := vx1.isFin && vy1.isFin
  let vx2 := if fine then vx1 else 0
  let vy2 := if fine then vy1 else 0
  let spd := vx2 * vx2 + vy2 * vy2
  let x1 := p.x + vx2
  let y1 := p.y + vy2
  if x1.isFin && y1.isFin then
    (⟨wrapPos x1 w, wrapPos y1 h, vx2, vy2, p.type⟩, idx, spd)
  else
    (⟨fin (rng idx) * w, fin (rng (idx + 1)) * h, 0, 0, p.type⟩, idx + 2, spd)

/-- The move pass over the particle list, threading the random cursor and
the running maximum squared speed. -/
def movePhase (rng : ℕ → ℚ) (w h maxVel : JNum) :
    List Particle → ℕ → JNum → List Particle × ℕ × JNum
  | [], idx, maxSpd => ([], idx, maxSpd)
  | p :: rest, idx, maxSpd =>
      let m := moveOne rng w h maxVel idx p
      let maxSpd1 := if JNum.gt m.2.2 maxSpd then m.2.2 else maxSpd
      let r := movePhase rng w h maxVel rest m.2.1 maxSpd1
      (m.1 :: r.1, r.2)

/-- A JS number that is a valid species index: an integer in
`[0, PARTICLE_TYPES)`. -/
def typeIdx (t : JNum) : Option ℕ :=
  match t with
  | fin q => if q.den = 1 ∧ 0 ≤ q.num ∧ q.num < (PARTICLE_TYPES : ℤ)
             then some q.num.toNat else none
  | _ => none

/-- Increment entry `k` of a species-count vector. -/
def bumpCount (l : List ℕ) (k : ℕ) : List ℕ := l.set k (l.getD k 0 + 1)

/-- Modelled from the spec: neighbour-species census for the mutation
rule — count, per species, the neighbours (self excluded) within the
fixed sub-radius, using the same toroidal-wrapped displacement as the
force computation (membership decided on squared distances). -/
def neighborTypeCounts (w halfW h halfH subSq : JNum) (ps : List Particle)
    (i : ℕ) (p : Particle) (nearby : List ℕ) : List ℕ :=
  nearby.foldl
    (fun counts j =>
      if j = i then counts
      else
        let q := ps.getD j default
        let dx := wrapDelta (q.x - p.x) w halfW
        let dy := wrapDelta (q.y - p.y) h halfH
        if JNum.lt (dx * dx + dy * dy) subSq then
          match typeIdx q.type with
          | some t => bumpCount counts t
          | none => counts
        else counts)
    (List.replicate PARTICLE_TYPES 0)

/-- Modelled from the spec: the majority scan, initialised from the
particle's own species count so that ties favour the current type. -/
def majorityScan (counts : List ℕ) (own : ℕ) : ℕ × ℕ :=
  (List.range PARTICLE_TYPES).foldl
    (fun best t => if counts.getD t 0 > best.2 then (t, counts.getD t 0) else best)
    (own, counts.getD own 0)

/-- Modelled from the spec: the species-mutation pass (spec section 4.4).
The final simulation.ts containing this pass is not present under src/
(only its `mutationEnabled` flag and callers are).  For each particle:
census the neighbour species within `0.4 * maxRadius` via the toroidal
spatial query; if the majority species differs from the particle's own
type and the majority count exceeds 2, convert to the majority type with
probability `advantage * 0.12`, `advantage = (majorityCount - ownCount)
/ majorityCount`, consuming one random draw per attempted conversion. -/
def mutateOne (rng : ℕ → ℚ) (w halfW h halfH subSq : JNum) (hc : SpatialHashCfg)
    (grid : Grid) (ps : List Particle) (i : ℕ) (p : Particle) (idx : ℕ) :
    Particle × ℕ :=
  match typeIdx p.type with
  | none => (p, idx)
  | some t =>
    let nearby := getNearby hc grid p.x p.y
    let counts := neighborTypeCounts w halfW h halfH subSq ps i p nearby
    let own := counts.getD t 0
    let best := majorityScan counts t
    if best.1 ≠ t ∧ 2 < best.2 then
      if rng idx < ((best.2 : ℚ) - (own : ℚ)) / (best.2 : ℚ) * (12/100) then
        ({ p with type := fin (best.1 : ℚ) }, idx + 1)
      else (p, idx + 1)
    else (p, idx)

/-- Modelled from the spec: loop of the mutation pass over the indexed
particle list, threading the random cursor. -/
def mutLoop (rng : ℕ → ℚ) (w halfW h halfH subSq : JNum) (hc : SpatialHashCfg)
    (grid : Grid) (ps : List Particle) :
    List (ℕ × Particle) → ℕ → List Particle × ℕ
  | [], idx => ([], idx)
  | ip :: rest, idx =>
      let m := mutateOne rng w halfW h halfH subSq hc grid ps ip.1 ip.2 idx
      let r := mutLoop rng w halfW h halfH subSq hc grid ps rest m.2
      (m.1 :: r.1, r.2)

/-- Modelled from the spec: one full mutation pass over the population. -/
def mutationPass (rng : ℕ → ℚ) (w halfW h halfH maxR : JNum) (hc : SpatialHashCfg)
    (ps : List Particle) (idx0 : ℕ) : List Particle × ℕ :=
  let grid := buildGrid hc ps
  let subSq := (fin (2/5) * maxR) * (fin (2/5) * maxR)
  mutLoop rng w halfW h halfH subSq hc grid ps ps.enum idx0

/-- Instantaneous speed `sqrt(vx*vx + vy*vy)`. -/
def speedOf (sq : ℚ → ℚ) (p : Particle) : JNum :=
  JNum.sqrt sq (p.vx * p.vx + p.vy * p.vy)

/-- `sampleEnergy`: per-species count and summed speed (writes at an
invalid species index are dropped, as on a typed array), then the
snapshot `sum / count`, or 0 for an empty species. -/
def sampleSnapshot (sq : ℚ → ℚ) (ps : List Particle) : List JNum :=
  let ce := ps.foldl
    (fun (ce : List ℚ × List JNum) p =>
      match typeIdx p.type with
      | some t => (ce.1.set t (ce.1.getD t 0 + 1),
                   ce.2.set t (ce.2.getD t 0 + speedOf sq p))
      | none => ce)
    (List.replicate PARTICLE_TYPES (0 : ℚ), List.replicate PARTICLE_TYPES (0 : JNum))
  (List.range PARTICLE_TYPES).map
    (fun t => if 0 < ce.1.getD t 0 then ce.2.getD t 0 / fin (ce.1.getD t 0) else fin 0)

/-- `energyHistory.push(snapshot)` followed by dropping the oldest entry
when the capacity of 200 is exceeded. -/
def pushTrim (h : List (List JNum)) (snap : List JNum) : List (List JNum) :=
  let h1 := h ++ [snap]
  if 200 < h1.length then h1.drop 1 else h1

/-- The per-step scalar derivations at the top of `update`, as a function
of the state. -/
def stepCtxOf (s : SimState) : StepCtx :=
  let cfg := s.config
  { w := s.width
    h := s.height
    halfW := s.width / 2
    halfH := s.height / 2
    rSq := cfg.maxRadius * cfg.maxRadius
    invR := fin 1 / cfg.maxRadius
    beta := JNum.jmax (fin (1/100)) (JNum.jmin (fin (99/100)) (cfg.minRadius / cfg.maxRadius))
    dt := cfg.speed * fin (1/2)
    fs := cfg.forceStrength
    maxVel := cfg.maxRadius * fin (1/2)
    friction := cfg.friction
    rules := cfg.rules
    mfActive := s.mouse.active && !(s.mouse.strength == fin 0)
    mfx := s.mouse.x
    mfy := s.mouse.y
    mfRadius := s.mouse.radius
    mfRadSq := s.mouse.radius * s.mouse.radius
    mfStrength := s.mouse.strength
    trackDensity := cfg.colorMode == ColorMode.density }

/-- Everything `update` does after the (fallible) force phase: density
cache, move pass, smoothed max speed, optional mutation pass, energy
sampling, and state assembly. -/
def stepAssemble (sq : ℚ → ℚ) (rng : ℕ → ℚ) (hc : SpatialHashCfg) (s : SimState)
    (pcs : List (Particle × ℕ)) : SimState :=
  let cfg := s.config
  let ctx := stepCtxOf s
  let ncounts :=
    if ctx.trackDensity then
      let base := if s.neighborCounts.length < s.particles.length
                  then List.replicate s.particles.length (0 : ℚ)
                  else s.neighborCounts
      (pcs.enum).foldl (fun l ic => l.set ic.1 (ic.2.2 : ℚ)) base
    else s.neighborCounts
  let mv := movePhase rng ctx.w ctx.h ctx.maxVel (pcs.map Prod.fst) s.rngIdx 0
  let moved := mv.1
  let observedMax := JNum.sqrt sq mv.2.2
  let mso1 := s.maxSpeedObserved * fin (19/20) + observedMax * fin (1/20)
  let mso := if JNum.lt mso1 (fin (1/10)) then fin (1/10) else mso1
  let mut3 :=
    if cfg.mutationEnabled then
      let c := s.mutCounter + 1
      if 8 ≤ c then
        let mres := mutationPass rng ctx.w ctx.halfW ctx.h ctx.halfH cfg.maxRadius hc moved mv.2.1
        (mres.1, mres.2, 0)
      else (moved, mv.2.1, c)
    else (moved, mv.2.1, s.mutCounter)
  let ec := s.energySampleCounter + 1
  let he :=
    if 6 ≤ ec then (pushTrim s.energyHistory (sampleSnapshot sq mut3.1), 0)
    else (s.energyHistory, ec)
  { s with particles := mut3.1
           frameCount := s.frameCount + 1
           energyHistory := he.1
           energySampleCounter := he.2
           maxSpeedObserved := mso
           neighborCounts := ncounts
           mutCounter := mut3.2.2
           rngIdx := mut3.2.1 }

/-- `update()`: one simulation step.  Returns `error` when the JS code
would throw (undefined rules row dereferenced), otherwise the new state.
Early no-op return when the spatial hash is unset or `width === 0`. -/
def update (sq : ℚ → ℚ) (rng : ℕ → ℚ) (s : SimState) : Except Unit SimState :=
  match s.hash with
  | none => .ok s
  | some hc =>
    if s.width = fin 0 then .ok s else
    (forcePhase sq (stepCtxOf s) s.particles (buildGrid hc s.particles) hc
        s.particles.enum).map (stepAssemble sq rng hc s)

/-- `getEnergyHistory()`. -/
def getEnergyHistory (s : SimState) : List (List JNum) := s.energyHistory

/-! ## Configuration and lifecycle -/

/-- `setDimensions(width, height)`: store the dimensions, rebuild the
spatial hash for them, and clamp any existing particle back into the new
bounds (per axis, only when that dimension is positive). -/
def setDimensions (s : SimState) (w h : JNum) : SimState :=
  let ps := s.particles.map (fun p =>
    let p1 := if JNum.gt w 0 then
        (if JNum.lt p.x 0 then { p with x := (0 : JNum) }
         else if JNum.ge p.x w then { p with x := w - 1 } else p)
      else p
    if JNum.gt h 0 then
      (if JNum.lt p1.y 0 then { p1 with y := (0 : JNum) }
       else if JNum.ge p1.y h then { p1 with y := h - 1 } else p1)
    else p1)
  { s with width := w, height := h,
           hash := some (mkHash s.config.maxRadius w h), particles := ps }

/-- One freshly spawned particle: uniform-random position in the world,
zero velocity, uniform-random type; consumes three random draws. -/
def randParticle (rng : ℕ → ℚ) (w h : JNum) (idx : ℕ) : Particle × ℕ :=
  (⟨fin (rng idx) * w, fin (rng (idx + 1)) * h, 0, 0,
    fin ((⌊rng (idx + 2) * (PARTICLE_TYPES : ℚ)⌋ : ℤ) : ℚ)⟩, idx + 3)

/-- Append `n` freshly spawned particles. -/
def pushRandom (rng : ℕ → ℚ) (w h : JNum) :
    ℕ → ℕ → List Particle → List Particle × ℕ
  | 0, idx, acc => (acc, idx)
  | n + 1, idx, acc =>
      let pi := randParticle rng w h idx
      pushRandom rng w h n pi.2 (acc ++ [pi.1])

/-- `adjustParticleCount(target)`: grow by appending random zero-velocity
particles, or shrink by truncating from the end. -/
def adjustParticleCount (rng : ℕ → ℚ) (s : SimState) (target : ℕ) : SimState :=
  let current := s.particles.length
  if current < target then
    let pr := pushRandom rng s.width s.height (target - current) s.rngIdx s.particles
    { s with particles := pr.1, rngIdx := pr.2 }
  else if target < current then
    { s with particles := s.particles.take target }
  else s

/-- `updateConfig(newConfig)`: clamp `minRadius` to `0.3 * maxRadius`
when the invariant is violated, install the config, rebuild the spatial
hash when the world is already dimensioned, and adjust the population
only when it is nonempty and the requested count differs from the
previous config's count. -/
def updateConfig (rng : ℕ → ℚ) (s : SimState) (nc : SimulationConfig) : SimState :=
  let oldCount := s.config.particleCount
  let safe := if JNum.gt nc.minRadius nc.maxRadius
              then { nc with minRadius := nc.maxRadius * fin (3/10) } else nc
  let s1 := { s with config := safe }
  let s2 := if JNum.gt s1.width 0
            then { s1 with hash := some (mkHash safe.maxRadius s1.width s1.height) }
            else s1
  if s2.particles.length ≠ 0 ∧ oldCount ≠ nc.particleCount
  then adjustParticleCount rng s2 nc.particleCount else s2

/-- `initializeParticles()`: discard the population and spawn
`particleCount` fresh random particles. -/
def initializeParticles (rng : ℕ → ℚ) (s : SimState) : SimState :=
  let pr := pushRandom rng s.width s.height s.config.particleCount s.rngIdx []
  { s with particles := pr.1, rngIdx := pr.2 }

/-! ## Iterated stepping and specification-side reference definitions -/

/-- `n` consecutive `update()` calls (`none` when some call throws). -/
def stepN (sq : ℚ → ℚ) (rng : ℕ → ℚ) : ℕ → SimState → Option SimState
  | 0, s => some s
  | n + 1, s => (stepN sq rng n s).bind (fun t => (update sq rng t).toOption)

/-- The last `n` elements of a list. -/
def lastN (n : ℕ) (l : List α) : List α := l.drop (l.length - n)

/-- The chronological (oldest-first) list of all energy snapshots emitted
during the first `n` steps from `s`: one snapshot at the end of every
step whose index is a multiple of 6. -/
def chronSnaps (sq : ℚ → ℚ) (rng : ℕ → ℚ) (s : SimState) : ℕ → List (List JNum)
  | 0 => []
  | n + 1 =>
      chronSnaps sq rng s n ++
        (match stepN sq rng (n + 1) s with
         | some t => if (n + 1) % 6 = 0 then [sampleSnapshot sq t.particles] else []
         | none => [])

/-- The energy snapshot written by the spec's words: one entry per
species, the sum of instantaneous speeds of that species' members
divided by their number, or 0 for an empty species. -/
def snapshotSpec (sq : ℚ → ℚ) (ps : List Particle) : List JNum :=
  (List.range PARTICLE_TYPES).map (fun t : ℕ =>
    let members := ps.filter (fun p => p.type == fin ((t : ℕ) : ℚ))
    if members.length = 0 then fin 0
    else (members.map (speedOf sq)).foldl (· + ·) (fin 0)
      / fin ((members.length : ℕ) : ℚ))

/-- The reference piecewise force of spec section 4.2, stated on
rationals directly from the spec's words. -/
def forceSpec (d a beta : ℚ) : ℚ :=
  if d < beta then d / beta - 1
  else if d < 1 then a * (1 - |2 * d - 1 - beta| / (1 - beta))
  else 0

/-! ## Predicates used in theorem statements -/

/-- Every particle's type indexes an existing rules row (so the force
loop can never dereference `undefined`). -/
def typesOk (rules : List (List JNum)) (ps : List Particle) : Prop :=
  ∀ p ∈ ps, (listGetJ rules p.type).isSome = true

/-- The particle's position is finite and inside `[0, w) × [0, h)`, and
its velocity is finite. -/
def wellPlaced (w h : ℚ) (p : Particle) : Prop :=
  (∃ qx, p.x = fin qx ∧ 0 ≤ qx ∧ qx < w) ∧
  (∃ qy, p.y = fin qy ∧ 0 ≤ qy ∧ qy < h) ∧
  p.vx.isFin = true ∧ p.vy.isFin = true

/-- The random stream produces values in `[0, 1)`, as `Math.random` does. -/
def rngOk (rng : ℕ → ℚ) : Prop := ∀ n, 0 ≤ rng n ∧ rng n < 1

/-- Zero or NaN: the two values a force accumulator can take when no
neighbour exerts a finite force (NaN arises from non-finite inputs and
is healed to zero by the move pass). -/
def zn (x : JNum) : Prop := x = fin 0 ∨ x = nan

/-- Particle `q` exerts no finite force on `p`: their wrapped squared
distance is not a finite value inside the interaction window
`[0.01, rSq)`.  (A non-finite squared distance is allowed: it yields a
NaN contribution, which the move pass heals back to rest.) -/
def outsideWindowB (w halfW h halfH : JNum) (rSq : ℚ) (p q : Particle) : Bool :=
  let dx := wrapDelta (q.x - p.x) w halfW
  let dy := wrapDelta (q.y - p.y) h halfH
  match dx * dx + dy * dy with
  | fin v => decide (v < 1/100) || decide (rSq ≤ v)
  | _ => true

/-- Every particle of the population other than index `i` is outside the
interaction window of particle `P`. -/
def isolatedB (s : SimState) (i : ℕ) (P : Particle) (r : ℚ) : Bool :=
  (List.range s.particles.length).all fun j =>
    j == i || outsideWindowB (stepCtxOf s).w (stepCtxOf s).halfW (stepCtxOf s).h
      (stepCtxOf s).halfH r P (s.particles.getD j default)

/-- The standing-still conditions on particle `i` of a state: it rests
(zero velocity) at a finite in-bounds position, and every other particle
of the population is outside its interaction window. -/
def restingAt (s : SimState) (i : ℕ) (P : Particle) (w h r : ℚ) : Prop :=
  s.particles.get? i = some P ∧
  P.vx = fin 0 ∧ P.vy = fin 0 ∧
  (∃ px, P.x = fin px ∧ 0 ≤ px ∧ px < w) ∧
  (∃ py, P.y = fin py ∧ 0 ≤ py ∧ py < h) ∧
  isolatedB s i P r = true

/-- Decidable equality of `Except` values, used to evaluate concrete
runs of the fallible step. -/
instance exceptDecEq {ε α : Type} [DecidableEq ε] [DecidableEq α] :
    DecidableEq (Except ε α) := fun a b =>
  match a, b with
  | .error e, .error f =>
      if h : e = f then .isTrue (by rw [h]) else
        .isFalse (fun hh => h (by cases hh; rfl))
  | .ok x, .ok y =>
      if h : x = y then .isTrue (by rw [h]) else
        .isFalse (fun hh => h (by cases hh; rfl))
  | .error _, .ok _ => .isFalse (fun hh => by cases hh)
  | .ok _, .error _ => .isFalse (fun hh => by cases hh)

/-! ## Concrete fixtures for evaluated runs -/

/-- A concrete square-root approximation, exact on squares of naturals. -/
def sqN (q : ℚ) : ℚ := ((Nat.sqrt q.num.toNat : ℤ) : ℚ)

/-- The constant-zero random stream (a valid `Math.random` trace). -/
def rngZero : ℕ → ℚ := fun _ => 0

/-- The all-zeros 6x6 rules matrix. -/
def zeroRules : List (List JNum) :=
  List.replicate PARTICLE_TYPES (List.replicate PARTICLE_TYPES (fin 0))

/-- An inactive pointer force. -/
def inertMouse : MouseForce := ⟨false, 0, 0, fin 150, 0⟩

/-- A small base configuration: zero friction, unit speed and force
strength, radii 100/20, zero rules. -/
def baseCfg : SimulationConfig :=
  ⟨2, fin 1, fin 0, fin 100, fin 20, fin 1, zeroRules, ColorMode.typeMode, false⟩

/-- A dimensioned kernel state (as after `setDimensions`) with the given
configuration, world size and particles. -/
def readyState (cfg : SimulationConfig) (w h : JNum) (ps : List Particle) : SimState :=
  { particles := ps, config := cfg, width := w, height := h
    hash := some (mkHash cfg.maxRadius w h), frameCount := 0, mouse := inertMouse
    energyHistory := [], energySampleCounter := 0, maxSpeedObserved := fin 1
    neighborCounts := [], mutCounter := 0, rngIdx := 0 }

/-- C5 counterexample state: a particle with out-of-range type 6 one
pixel away from a valid particle. -/
def stBadType : SimState :=
  readyState baseCfg (fin 300) (fin 300)
    [⟨fin 50, fin 50, fin 0, fin 0, fin 6⟩, ⟨fin 51, fin 50, fin 0, fin 0, fin 0⟩]

/-- C7 counterexample state: width 10, height 0, one resting particle. -/
def stZeroHeight : SimState :=
  readyState baseCfg (fin 10) (fin 0) [⟨fin 5, fin 5, fin 0, fin 0, fin 0⟩]

/-- C9 counterexample state: a zero-rule-row particle with a second
particle inside its repulsion zone (distance 10, `beta * maxRadius` 20). -/
def stRepel : SimState :=
  readyState baseCfg (fin 300) (fin 300)
    [⟨fin 50, fin 50, fin 0, fin 0, fin 0⟩, ⟨fin 60, fin 50, fin 0, fin 0, fin 1⟩]

/-- C9 witness state: two resting zero-row particles far apart. -/
def stFar : SimState :=
  readyState baseCfg (fin 300) (fin 300)
    [⟨fin 50, fin 50, fin 0, fin 0, fin 0⟩, ⟨fin 250, fin 150, fin 0, fin 0, fin 1⟩]

/-- C10 fixture: 100x100 world with cell size 100 (single-cell grid) and
two particles 10 apart. -/
def hcSmall : SpatialHashCfg := mkHash (fin 100) (fin 100) (fin 100)

/-- C10 fixture particles. -/
def psSmall : List Particle :=
  [⟨fin 10, fin 10, fin 0, fin 0, fin 0⟩, ⟨fin 20, fin 10, fin 0, fin 0, fin 0⟩]

/-- C10 fixture state. -/
def stSmall : SimState := readyState baseCfg (fin 100) (fin 100) psSmall

/-- C6 counterexample fixture: width 31, cell size 10. -/
def hcThirtyOne : SpatialHashCfg := mkHash (fin 10) (fin 31) (fin 31)

/-- C6 counterexample particles: `x = width - 5` and `x = 5`, same y. -/
def psThirtyOne : List Particle :=
  [⟨fin 26, fin 5, fin 0, fin 0, fin 0⟩, ⟨fin 5, fin 5, fin 0, fin 0, fin 0⟩]

/-- C3 state: a type-0 particle surrounded by four type-1 particles
within the mutation sub-radius, mutation enabled, on its 8th pacing
tick; zero force strength keeps positions until the mutation pass. -/
def stMut : SimState :=
  { readyState { baseCfg with particleCount := 5, mutationEnabled := true,
                              forceStrength := fin 0 }
      (fin 300) (fin 300)
      [⟨fin 50, fin 50, fin 0, fin 0, fin 0⟩, ⟨fin 55, fin 50, fin 0, fin 0, fin 1⟩,
       ⟨fin 50, fin 55, fin 0, fin 0, fin 1⟩, ⟨fin 45, fin 50, fin 0, fin 0, fin 1⟩,
       ⟨fin 50, fin 45, fin 0, fin 0, fin 1⟩] with
    mutCounter := 7 }

/-- C4 counterexample state: an empty population (before any
initialization), dimensioned world. -/
def stEmpty : SimState := readyState baseCfg (fin 100) (fin 100) []

/-- C4 counterexample target configuration requesting 3 particles. -/
def cfgThree : SimulationConfig := { baseCfg with particleCount := 3 }

/-- C8 witness state: one particle coasting with velocity (1, 2). -/
def stCoast : SimState :=
  readyState { baseCfg with particleCount := 1 } (fin 300) (fin 300)
    [⟨fin 5, fin 5, fin 1, fin 2, fin 0⟩]

/-- C7 witness state: a never-dimensioned kernel (no spatial hash). -/
def stUndim : SimState :=
  { readyState baseCfg (fin 0) (fin 0) [⟨fin 5, fin 5, fin 1, fin 2, fin 0⟩] with
    hash := none }

/-- C4 witness target configuration requesting 4 particles. -/
def cfgFour : SimulationConfig := { baseCfg with particleCount := 4 }

/-! ## Arithmetic lemmas on finite JS numbers -/

@[simp] theorem fin_add (a b : ℚ) : (fin a + fin b : JNum) = fin (a + b) := rfl

@[simp] theorem fin_neg (a : ℚ) : (-(fin a) : JNum) = fin (-a) := rfl

@[simp] theorem fin_sub (a b : ℚ) : (fin a - fin b : JNum) = fin (a - b) := by
  show JNum.add (fin a) (JNum.neg (fin b)) = fin (a - b)
  simp [JNum.add, JNum.neg, sub_eq_add_neg]

@[simp] theorem fin_mul (a b : ℚ) : (fin a * fin b : JNum) = fin (a * b) := rfl

theorem fin_div {b : ℚ} (a : ℚ) (h : b ≠ 0) : (fin a / fin b : JNum) = fin (a / b) := by
  show JNum.div (fin a) (fin b) = fin (a / b)
  simp [JNum.div, h]

@[simp] theorem abs_fin (a : ℚ) : JNum.abs (fin a) = fin |a| := rfl

@[simp] theorem lt_fin (a b : ℚ) : JNum.lt (fin a) (fin b) = decide (a < b) := rfl

@[simp] theorem le_fin (a b : ℚ) : JNum.le (fin a) (fin b) = decide (a ≤ b) := rfl

@[simp] theorem isFin_fin (a : ℚ) : (fin a).isFin = true := rfl

@[simp] theorem jnum_zero : (0 : JNum) = fin 0 := rfl

@[simp] theorem jnum_one : (1 : JNum) = fin 1 := rfl

@[simp] theorem jnum_two : (2 : JNum) = fin 2 := rfl

theorem fin_mod {w : ℚ} (a : ℚ) (h : w ≠ 0) :
    JNum.mod (fin a) (fin w) = fin (a - w * (JNum.qtrunc (a / w) : ℚ)) := by
  simp [JNum.mod, h]

/-! ## The position wrap `((x % w) + w) % w` -/

theorem qtrunc_eq_floor {q : ℚ} (h : 0 ≤ q) : JNum.qtrunc q = ⌊q⌋ := by
  simp [JNum.qtrunc, h]

theorem qtrunc_eq_ceil {q : ℚ} (h : ¬ 0 ≤ q) : JNum.qtrunc q = ⌈q⌉ := by
  simp [JNum.qtrunc, h]

/-- A single `%` by a positive modulus, applied to a nonnegative
dividend, lands in `[0, w)`. -/
theorem modq_bounds {w : ℚ} (t : ℚ) (hw : 0 < w) (ht : 0 ≤ t) :
    0 ≤ t - w * (JNum.qtrunc (t / w) : ℚ) ∧ t - w * (JNum.qtrunc (t / w) : ℚ) < w := by
  rw [qtrunc_eq_floor (by positivity)]
  have hw0 : w ≠ 0 := ne_of_gt hw
  have h1 : t - w * (⌊t / w⌋ : ℚ) = w * Int.fract (t / w) := by
    rw [Int.fract]
    field_simp
  rw [h1]
  constructor
  · exact mul_nonneg hw.le (Int.fract_nonneg _)
  · calc w * Int.fract (t / w) < w * 1 := by
          exact (mul_lt_mul_left hw).2 (Int.fract_lt_one _)
        _ = w := mul_one w

/-- The first `%` of the wrap leaves any finite value strictly within
`(-w, w)`. -/
theorem mod_first_bounds {w : ℚ} (a : ℚ) (hw : 0 < w) :
    -w < a - w * (JNum.qtrunc (a / w) : ℚ) ∧ a - w * (JNum.qtrunc (a / w) : ℚ) < w := by
  have hw0 : w ≠ 0 := ne_of_gt hw
  by_cases ha : 0 ≤ a
  · have h := modq_bounds a hw ha
    exact ⟨lt_of_lt_of_le (neg_neg_of_pos hw) h.1, h.2⟩
  · have haw : ¬ 0 ≤ a / w := by
      push_neg
      exact div_neg_of_neg_of_pos (lt_of_not_le ha) hw
    rw [qtrunc_eq_ceil haw]
    have h1 : a - w * (⌈a / w⌉ : ℚ) = w * (a / w - ⌈a / w⌉) := by
      field_simp
    rw [h1]
    constructor
    · have hgt : (-1 : ℚ) < a / w - ⌈a / w⌉ := by
        have := Int.ceil_lt_add_one (a / w)
        linarith
      calc -w = w * (-1) := by ring
        _ < w * (a / w - ⌈a / w⌉) := (mul_lt_mul_left hw).2 hgt
    · have hle : a / w - (⌈a / w⌉ : ℚ) ≤ 0 := by
        have := Int.le_ceil (a / w)
        linarith
      calc w * (a / w - ⌈a / w⌉) ≤ w * 0 := by
            exact mul_le_mul_of_nonneg_left hle hw.le
        _ = 0 := mul_zero w
        _ < w := hw

/-- The full position wrap of a finite value by a positive finite
modulus lands in `[0, w)`. -/
theorem wrapPos_bounds {w : ℚ} (a : ℚ) (hw : 0 < w) :
    ∃ r : ℚ, wrapPos (fin a) (fin w) = fin r ∧ 0 ≤ r ∧ r < w := by
  have hw0 : w ≠ 0 := ne_of_gt hw
  rw [wrapPos, fin_mod a hw0, fin_add, fin_mod _ hw0]
  refine ⟨_, rfl, ?_⟩
  have hfirst := mod_first_bounds a hw
  exact modq_bounds _ hw (by linarith [hfirst.1])

/-- The position wrap fixes values already in `[0, w)`. -/
theorem wrapPos_fixed {a w : ℚ} (h0 : 0 ≤ a) (haw : a < w) :
    wrapPos (fin a) (fin w) = fin a := by
  have hw : 0 < w := lt_of_le_of_lt h0 haw
  have hw0 : w ≠ 0 := ne_of_gt hw
  have hdiv : 0 ≤ a / w := div_nonneg h0 hw.le
  have hlt1 : a / w < 1 := (div_lt_one hw).2 haw
  have hq1 : JNum.qtrunc (a / w) = 0 := by
    rw [qtrunc_eq_floor hdiv]
    exact Int.floor_eq_zero_iff.2 ⟨hdiv, hlt1⟩
  have e1 : a - w * ((JNum.qtrunc (a / w) : ℤ) : ℚ) = a := by
    rw [hq1]
    push_cast
    ring
  have hq2 : JNum.qtrunc ((a + w) / w) = 1 := by
    rw [qtrunc_eq_floor (div_nonneg (by linarith) hw.le)]
    have e2 : (a + w) / w = a / w + 1 := by field_simp
    rw [e2, Int.floor_add_one, Int.floor_eq_zero_iff.2 ⟨hdiv, hlt1⟩]
    norm_num
  have e3 : a + w - w * ((1 : ℤ) : ℚ) = a := by push_cast; ring
  rw [wrapPos, fin_mod a hw0, e1, fin_add, fin_mod _ hw0, hq2, e3]

/-! ## C2: the force law -/

/-- C2: for every `d ≥ 0`, every `a`, and every `beta` in `(0,1)`,
`particleLifeForce` agrees with the spec's piecewise reference
definition; in particular it is `-1` at `d = 0`, `0` at `d = beta`, `0`
at `d = 1` and beyond, and exactly `a` at the midpoint `(1+beta)/2`; the
two branch formulas agree (with value 0) at the boundaries `d = beta`
and `d = 1`, so the function is continuous there. -/
theorem C2_force_law (d a β : ℚ) (hd : 0 ≤ d) (hb0 : 0 < β) (hb1 : β < 1) :
    particleLifeForce (fin d) (fin a) (fin β) = fin (forceSpec d a β) ∧
    particleLifeForce (fin 0) (fin a) (fin β) = fin (-1) ∧
    particleLifeForce (fin β) (fin a) (fin β) = fin 0 ∧
    particleLifeForce (fin 1) (fin a) (fin β) = fin 0 ∧
    (∀ e : ℚ, 1 < e → particleLifeForce (fin e) (fin a) (fin β) = fin 0) ∧
    particleLifeForce (fin ((1 + β) / 2)) (fin a) (fin β) = fin a ∧
    β / β - 1 = forceSpec β a β ∧
    a * (1 - |2 * 1 - 1 - β| / (1 - β)) = forceSpec 1 a β := by
  have hbne : β ≠ 0 := ne_of_gt hb0
  have h1b : (1 : ℚ) - β ≠ 0 := by linarith
  have main : ∀ e : ℚ, particleLifeForce (fin e) (fin a) (fin β) = fin (forceSpec e a β) := by
    intro e
    rw [particleLifeForce, forceSpec]
    by_cases h₁ : e < β
    · simp only [lt_fin, h₁, decide_True, if_true]
      rw [fin_div e hbne]
      simp
    · simp only [lt_fin, h₁, decide_False, if_false]
      by_cases h₂ : e < 1
      · simp only [jnum_one, lt_fin, h₂, decide_True, if_true, jnum_two,
          fin_mul, fin_sub, abs_fin, fin_div _ h1b]
        norm_num
      · simp only [jnum_one, lt_fin, h₂, decide_False, if_false]
        norm_num
  have atBeta : forceSpec β a β = 0 := by
    rw [forceSpec]
    simp only [lt_irrefl, if_false]
    rw [if_pos hb1]
    have : |2 * β - 1 - β| = 1 - β := by
      rw [abs_of_nonpos (by linarith)]
      ring
    rw [this, div_self h1b]
    ring
  have atOne : forceSpec 1 a β = 0 := by
    rw [forceSpec]
    rw [if_neg (by linarith), if_neg (by linarith)]
  refine ⟨main d, ?_, ?_, ?_, ?_, ?_, ?_, ?_⟩
  · rw [main 0, forceSpec, if_pos hb0]
    rw [zero_div]
    norm_num
  · rw [main β, atBeta]
  · rw [main 1, atOne]
  · intro e he
    rw [main e, forceSpec, if_neg (by linarith), if_neg (by linarith)]
  · rw [main ((1 + β) / 2)]
    have hmid1 : ¬ (1 + β) / 2 < β := by
      push_neg
      linarith
    have hmid2 : (1 + β) / 2 < 1 := by linarith
    rw [forceSpec, if_neg hmid1, if_pos hmid2]
    have : |2 * ((1 + β) / 2) - 1 - β| = 0 := by
      rw [abs_eq_zero]
      ring
    rw [this, zero_div]
    norm_num
  · rw [atBeta, div_self hbne]
    ring
  · rw [atOne]
    have : |2 * 1 - 1 - β| = 1 - β := by
      rw [abs_of_nonneg (by linarith)]
      ring
    rw [this, div_self h1b]
    ring

/-- Witness for C2 at `d = 1/2`, `a = 1`, `β = 3/10`. -/
theorem C2_force_law_witness :
    particleLifeForce (fin (1/2)) (fin 1) (fin (3/10)) = fin (forceSpec (1/2) 1 (3/10)) ∧
    particleLifeForce (fin ((1 + 3/10) / 2)) (fin 1) (fin (3/10)) = fin 1 := by
  have h := C2_force_law (1/2) 1 (3/10) (by norm_num) (by norm_num) (by norm_num)
  exact ⟨h.1, h.2.2.2.2.2.1⟩

/-! ## C6: toroidal wrap of the neighbourhood query -/

/-- C6 fails as stated: with world width 31 (which is greater than 10)
and `cellSize = maxRadius = 10`, the particle at `x = width - 5 = 26`
(index 0) and the particle at `x = 5` (index 1, same y) do NOT appear in
each other's 3x3 neighbourhood query: the query wraps bucket
coordinates, but 26 falls in bucket 2 while the wrap maps out-of-range
buckets onto bucket `cellsW - 1 = 3`, so the two buckets are not
adjacent modulo the 4-bucket axis. -/
theorem C6_counterexample :
    (1 : ℕ) ∉ getNearby hcThirtyOne (buildGrid hcThirtyOne psThirtyOne) (fin 26) (fin 5) ∧
    (0 : ℕ) ∉ getNearby hcThirtyOne (buildGrid hcThirtyOne psThirtyOne) (fin 5) (fin 5) := by
  with_unfolding_all decide

/-! ## C10: duplicated neighbours on small grids -/

/-- C10: on a 100x100 world with `cellSize = maxRadius = 100` the grid
has a single cell per axis, so all nine wrapped buckets of the 3x3 query
coincide: the stored particle 1 occurs 9 times in particle 0's query
result, and the step accumulates its force contribution once per
occurrence — particle 0's velocity becomes `9 * (-1/4)`, nine times the
single-pair contribution `(dx/d) * (force * forceStrength) * dt`. -/
theorem C10_duplicate_neighbors :
    (getNearby hcSmall (buildGrid hcSmall psSmall) (fin 10) (fin 10)).count 1 = 9 ∧
    (update sqN rngZero stSmall).map (fun s => s.particles.map Particle.vx) =
      .ok [fin (-(9 : ℚ)/4), fin (9/4)] ∧
    (fin 10 / fin 10) * (particleLifeForce (fin (1/10)) (fin 0) (fin (1/5)) * fin 1) * fin (1/2)
      = fin (-(1 : ℚ)/4) ∧
    (-(9 : ℚ)/4) = 9 * (-(1 : ℚ)/4) := by
  with_unfolding_all decide

/-! ## C7: the zero-dimension early return -/

/-- C7 fails as stated: the early return tests only `width === 0`, not
the height.  With width 10 and height 0 the step proceeds and the
position wrap `((y % 0) + 0) % 0` turns the resting particle's finite
`y = 5` into NaN, so the step is not a no-op on a zero-height world. -/
theorem C7_counterexample :
    stZeroHeight.height = fin 0 ∧
    stZeroHeight.particles.map Particle.y = [fin 5] ∧
    (update sqN rngZero stZeroHeight).map (fun s => s.particles.map Particle.y) =
      .ok [nan] := by
  with_unfolding_all decide

/-! ## C3: the mutation rule flips an out-numbered particle -/

/-- C3 (mutation modelled from the spec, the pass being absent from
src/): in a reachable state with mutation enabled, on the 8th pacing
tick, a type-0 particle surrounded by four type-1 neighbours within
`0.4 * maxRadius` has majority count 4 > 2 and advantage 1, so with a
random draw 0 < 0.12 the step converts it to type 1; the step changes a
particle's type. -/
theorem C3_mutation_flips_type :
    stMut.config.mutationEnabled = true ∧
    stMut.mutCounter + 1 = 8 ∧
    stMut.particles.map Particle.type = [fin 0, fin 1, fin 1, fin 1, fin 1] ∧
    (update sqN rngZero stMut).map (fun s => s.particles.map Particle.type) =
      .ok [fin 1, fin 1, fin 1, fin 1, fin 1] := by
  with_unfolding_all decide

/-! ## C5: totality of the step -/

/-- C5 fails as stated: with an out-of-range particle type (6, with six
species), `rules[p.type]` is `undefined` and the force loop dereferences
it as soon as another particle is in range, so `update()` throws. -/
theorem C5_counterexample :
    stBadType.particles.map Particle.type = [fin 6, fin 0] ∧
    update sqN rngZero stBadType = .error () := by
  with_unfolding_all decide

/-! ## C9: the zero-row fixed point -/

/-- C9 fails as stated: the sub-`beta` repulsion branch of the force law
does not depend on the rule value, so a zero-rule-row particle with zero
velocity and no pointer force still moves when another particle sits
inside its repulsion zone: particle 0 (type 0, all-zero row, at x = 50)
is pushed to x = 199/4 by the type-1 particle at distance 10. -/
theorem C9_counterexample :
    stRepel.config.rules.get? 0 = some (List.replicate 6 (fin 0)) ∧
    stRepel.mouse.active = false ∧
    stRepel.particles.map Particle.vx = [fin 0, fin 0] ∧
    (update sqN rngZero stRepel).map
        (fun s => (s.particles.map Particle.x, s.particles.map Particle.vx)) =
      .ok ([fin (199/4), fin (241/4)], [fin (-(1 : ℚ)/4), fin (1/4)]) := by
  with_unfolding_all decide

/-! ## C4: population stability -/

/-- C4 fails as stated: `updateConfig` only adjusts the population when
it is nonempty, so on a state whose particle array is empty a request
for 3 particles leaves the length at 0, not 3. -/
theorem C4_counterexample :
    cfgThree.particleCount = 3 ∧
    (updateConfig rngZero stEmpty cfgThree).particles.length = 0 := by
  with_unfolding_all decide

/-- C7 amended: the step is a no-op — returning the state unchanged,
all bookkeeping included — exactly when the kernel was never dimensioned
(no spatial hash) or the width is zero; a zero height alone does not
trigger the early return (see the counterexample). -/
theorem C7_no_op (sq : ℚ → ℚ) (rng : ℕ → ℚ) (s : SimState)
    (h : s.hash = none ∨ s.width = fin 0) :
    update sq rng s = .ok s := by
  cases hh : s.hash with
  | none => simp [update, hh]
  | some hc =>
    rcases h with h | h
    · rw [hh] at h
      cases h
    · simp [update, hh, h]

/-- Witness for C7 amended on the never-dimensioned fixture. -/
theorem C7_no_op_witness : update sqN rngZero stUndim = .ok stUndim :=
  C7_no_op sqN rngZero stUndim (Or.inl rfl)

/-! ## Structure-preservation lemmas for the step -/

@[simp] theorem except_bind_ok (x : α) (f : α → Except ε β) :
    (Except.ok x >>= f : Except ε β) = f x := rfl

@[simp] theorem except_bind_er (e : ε) (f : α → Except ε β) :
    (Except.error e >>= f : Except ε β) = Except.error e := rfl

@[simp] theorem except_map_ok (f : α → β) (x : α) :
    (Except.ok x : Except ε α).map f = Except.ok (f x) := rfl

@[simp] theorem except_map_er (f : α → β) (e : ε) :
    (Except.error e : Except ε α).map f = Except.error e := rfl

theorem forcePhase_length {sq : ℚ → ℚ} {ctx : StepCtx} {ps : List Particle}
    {grid : Grid} {hc : SpatialHashCfg} :
    ∀ {l : List (ℕ × Particle)} {acc : List (Particle × ℕ)},
      forcePhase sq ctx ps grid hc l = .ok acc → acc.length = l.length := by
  intro l
  induction l with
  | nil =>
    intro acc h
    simp only [forcePhase] at h
    cases h
    rfl
  | cons ip rest ih =>
    intro acc h
    simp only [forcePhase] at h
    cases h1 : forceOne sq ctx ps grid hc ip.1 ip.2 with
    | error e => rw [h1] at h; simp at h
    | ok pc =>
      rw [h1] at h
      cases h2 : forcePhase sq ctx ps grid hc rest with
      | error e => rw [h2] at h; simp at h
      | ok l2 =>
        rw [h2] at h
        simp only [except_bind_ok] at h
        cases h
        simp [ih h2]

theorem movePhase_length (rng : ℕ → ℚ) (w h maxVel : JNum) :
    ∀ (l : List Particle) (idx : ℕ) (ms : JNum),
      ((movePhase rng w h maxVel l idx ms).1).length = l.length := by
  intro l
  induction l with
  | nil => intro idx ms; simp [movePhase]
  | cons p rest ih => intro idx ms; simp [movePhase, ih]

theorem mutLoop_length (rng : ℕ → ℚ) (w halfW h halfH subSq : JNum)
    (hc : SpatialHashCfg) (grid : Grid) (ps : List Particle) :
    ∀ (ips : List (ℕ × Particle)) (idx : ℕ),
      ((mutLoop rng w halfW h halfH subSq hc grid ps ips idx).1).length = ips.length := by
  intro ips
  induction ips with
  | nil => intro idx; simp [mutLoop]
  | cons ip rest ih => intro idx; simp [mutLoop, ih]

/-- The particle list produced by `stepAssemble` has the input length. -/
theorem stepAssemble_length (sq : ℚ → ℚ) (rng : ℕ → ℚ) (hc : SpatialHashCfg)
    (s : SimState) (pcs : List (Particle × ℕ)) (hlen : pcs.length = s.particles.length) :
    (stepAssemble sq rng hc s pcs).particles.length = s.particles.length := by
  simp only [stepAssemble]
  split
  · split
    · rw [mutationPass]
      simp [mutLoop_length, movePhase_length, hlen]
    · simp [movePhase_length, hlen]
  · simp [movePhase_length, hlen]

/-- `update` never changes the particle count (when it completes). -/
theorem update_ok_length {sq : ℚ → ℚ} {rng : ℕ → ℚ} {s s2 : SimState}
    (h : update sq rng s = .ok s2) : s2.particles.length = s.particles.length := by
  rw [update] at h
  cases hh : s.hash with
  | none =>
    rw [hh] at h
    simp only [] at h
    cases h
    rfl
  | some hc =>
    rw [hh] at h
    simp only [] at h
    by_cases hw : s.width = fin 0
    · rw [if_pos hw] at h
      cases h
      rfl
    · rw [if_neg hw] at h
      cases hf : forcePhase sq (stepCtxOf s) s.particles (buildGrid hc s.particles) hc
            s.particles.enum with
      | error e => rw [hf] at h; simp at h
      | ok pcs =>
        rw [hf] at h
        simp only [except_map_ok] at h
        cases h
        exact stepAssemble_length sq rng hc s pcs
          (by rw [forcePhase_length hf]; simp)

/-! ## C4: population adjustment -/

theorem pushRandom_spec (rng : ℕ → ℚ) (w h : JNum) :
    ∀ (n idx : ℕ) (acc : List Particle),
      ∃ tail : List Particle,
        (pushRandom rng w h n idx acc).1 = acc ++ tail ∧
        tail.length = n ∧
        ∀ p ∈ tail, p.vx = fin 0 ∧ p.vy = fin 0 := by
  intro n
  induction n with
  | zero =>
    intro idx acc
    exact ⟨[], by simp [pushRandom], rfl, by simp⟩
  | succ m ih =>
    intro idx acc
    simp only [pushRandom]
    obtain ⟨tail, h1, h2, h3⟩ :=
      ih (randParticle rng w h idx).2 (acc ++ [(randParticle rng w h idx).1])
    refine ⟨(randParticle rng w h idx).1 :: tail, ?_, by simp [h2], ?_⟩
    · rw [h1]
      simp
    · intro p hp
      rcases List.mem_cons.1 hp with hp | hp

      · subst hp
        exact ⟨rfl, rfl⟩
      · exact h3 p hp

/-- `updateConfig`, under the adjustment condition, reduces to
`adjustParticleCount` on a state with the same particles. -/
theorem updateConfig_reduces (rng : ℕ → ℚ) (s : SimState) (nc : SimulationConfig)
    (hne : s.particles.length ≠ 0) (hdiff : s.config.particleCount ≠ nc.particleCount) :
    ∃ t : SimState, t.particles = s.particles ∧
      updateConfig rng s nc = adjustParticleCount rng t nc.particleCount := by
  simp only [updateConfig]
  split
  · refine ⟨_, ?_, if_pos ⟨hne, hdiff⟩⟩
    rfl
  · refine ⟨_, ?_, if_pos ⟨hne, hdiff⟩⟩
    rfl

/-- The resulting population of `adjustParticleCount` always has the
requested length; on growth the old particles form an unchanged prefix
and every appended particle has zero velocity. -/
theorem adjustParticleCount_spec (rng : ℕ → ℚ) (t : SimState) (target : ℕ) :
    (adjustParticleCount rng t target).particles.length = target ∧
    (t.particles.length ≤ target →
      (adjustParticleCount rng t target).particles.take t.particles.length = t.particles ∧
      ∀ p ∈ (adjustParticleCount rng t target).particles.drop t.particles.length,
        p.vx = fin 0 ∧ p.vy = fin 0) := by
  rw [adjustParticleCount]
  by_cases hlt : t.particles.length < target
  · rw [if_pos hlt]
    obtain ⟨tail, h1, h2, h3⟩ :=
      pushRandom_spec rng t.width t.height (target - t.particles.length) t.rngIdx t.particles
    simp only [h1]
    refine ⟨?_, fun _ => ⟨?_, ?_⟩⟩
    · simp [h2]
      omega
    · simp [List.take_left]
    · simp only [List.drop_left]
      exact h3
  · rw [if_neg hlt]
    by_cases hgt : target < t.particles.length
    · rw [if_pos hgt]
      constructor
      · simp
        omega
      · intro hle
        omega
    · rw [if_neg hgt]
      have heq : t.particles.length = target := by omega
      refine ⟨heq, fun _ => ⟨?_, ?_⟩⟩
      · simp
      · simp [List.drop_length]

/-- C4 amended: a completed `update()` never changes the particle count;
and when `updateConfig` is called on a NONEMPTY population with a
`particleCount` DIFFERENT from the previous config's count, the
resulting length equals the requested count exactly, growth preserves
the existing prefix unchanged, and appended particles have zero
velocity.  (On an empty population, or when the old config already
recorded the requested count, `updateConfig` leaves the population
alone — see the counterexample.) -/
theorem C4_amended (sq : ℚ → ℚ) (rng : ℕ → ℚ) (s : SimState) (nc : SimulationConfig)
    (hne : s.particles.length ≠ 0) (hdiff : s.config.particleCount ≠ nc.particleCount) :
    (∀ s2, update sq rng s = .ok s2 → s2.particles.length = s.particles.length) ∧
    (updateConfig rng s nc).particles.length = nc.particleCount ∧
    (s.particles.length ≤ nc.particleCount →
      (updateConfig rng s nc).particles.take s.particles.length = s.particles ∧
      ∀ p ∈ (updateConfig rng s nc).particles.drop s.particles.length,
        p.vx = fin 0 ∧ p.vy = fin 0) := by
  obtain ⟨t, ht, heq⟩ := updateConfig_reduces rng s nc hne hdiff
  have hspec := adjustParticleCount_spec rng t nc.particleCount
  rw [ht] at hspec
  rw [heq]
  exact ⟨fun s2 h => update_ok_length h, hspec.1, hspec.2⟩

/-! ## Healing and boundedness of the move pass -/

theorem isFin_iff {j : JNum} : j.isFin = true ↔ ∃ q, j = fin q := by
  cases j <;> simp [JNum.isFin]

/-- The moved particle is finite, lies inside the (positive) world
bounds, has finite velocity, and keeps its type — whatever the input
particle's numeric state. -/
theorem moveOne_post (rng : ℕ → ℚ) {w h : ℚ} (hw : 0 < w) (hh : 0 < h)
    (hr : rngOk rng) (maxVel : JNum) (idx : ℕ) (p : Particle) :
    wellPlaced w h (moveOne rng (fin w) (fin h) maxVel idx p).1 ∧
    (moveOne rng (fin w) (fin h) maxVel idx p).1.type = p.type := by
  simp only [moveOne]
  generalize clampVel p.vx maxVel = v1
  generalize clampVel p.vy maxVel = v2
  have hfin : ∃ a b : ℚ,
      (if (v1.isFin && v2.isFin) = true then v1 else (0 : JNum)) = fin a ∧
      (if (v1.isFin && v2.isFin) = true then v2 else (0 : JNum)) = fin b := by
    by_cases hf : (v1.isFin && v2.isFin) = true
    · rw [Bool.and_eq_true] at hf
      obtain ⟨a, ha⟩ := isFin_iff.1 hf.1
      obtain ⟨b, hb⟩ := isFin_iff.1 hf.2
      refine ⟨a, b, ?_, ?_⟩
      · rw [if_pos (by rw [Bool.and_eq_true]; exact hf)]
        exact ha
      · rw [if_pos (by rw [Bool.and_eq_true]; exact hf)]
        exact hb
    · exact ⟨0, 0, by rw [if_neg hf]; exact jnum_zero, by rw [if_neg hf]; exact jnum_zero⟩
  obtain ⟨a, b, ha, hb⟩ := hfin
  rw [ha, hb]
  split
  · rename_i hcond
    rw [Bool.and_eq_true] at hcond
    obtain ⟨qx, hqx⟩ := isFin_iff.1 hcond.1
    obtain ⟨qy, hqy⟩ := isFin_iff.1 hcond.2
    rw [hqx, hqy]
    obtain ⟨rx, hrx, hrx0, hrxw⟩ := wrapPos_bounds qx hw
    obtain ⟨ry, hry, hry0, hryh⟩ := wrapPos_bounds qy hh
    exact ⟨⟨⟨rx, by simp [hrx], hrx0, hrxw⟩, ⟨ry, by simp [hry], hry0, hryh⟩,
      rfl, rfl⟩, rfl⟩
  · refine ⟨⟨⟨rng idx * w, by simp, ?_, ?_⟩, ⟨rng (idx + 1) * h, by simp, ?_, ?_⟩,
      rfl, rfl⟩, rfl⟩
    · exact mul_nonneg (hr idx).1 hw.le
    · calc rng idx * w < 1 * w := by
            exact (mul_lt_mul_right hw).2 (hr idx).2
        _ = w := one_mul w
    · exact mul_nonneg (hr (idx + 1)).1 hh.le
    · calc rng (idx + 1) * h < 1 * h := by
            exact (mul_lt_mul_right hh).2 (hr (idx + 1)).2
        _ = h := one_mul h

theorem movePhase_post (rng : ℕ → ℚ) {w h : ℚ} (hw : 0 < w) (hh : 0 < h)
    (hr : rngOk rng) (maxVel : JNum) :
    ∀ (l : List Particle) (idx : ℕ) (ms : JNum),
      ∀ q ∈ (movePhase rng (fin w) (fin h) maxVel l idx ms).1, wellPlaced w h q := by
  intro l
  induction l with
  | nil =>
    intro idx ms q hq
    simp [movePhase] at hq
  | cons p rest ih =>
    intro idx ms q hq
    simp only [movePhase, List.mem_cons] at hq
    rcases hq with hq | hq
    · rw [hq]
      exact (moveOne_post rng hw hh hr maxVel idx p).1
    · exact ih _ _ q hq

/-- The mutation rule only ever changes a particle's type. -/
theorem mutateOne_fields (rng : ℕ → ℚ) (w halfW h halfH subSq : JNum)
    (hc : SpatialHashCfg) (grid : Grid) (ps : List Particle) (i : ℕ)
    (p : Particle) (idx : ℕ) :
    (mutateOne rng w halfW h halfH subSq hc grid ps i p idx).1.x = p.x ∧
    (mutateOne rng w halfW h halfH subSq hc grid ps i p idx).1.y = p.y ∧
    (mutateOne rng w halfW h halfH subSq hc grid ps i p idx).1.vx = p.vx ∧
    (mutateOne rng w halfW h halfH subSq hc grid ps i p idx).1.vy = p.vy := by
  rw [mutateOne]
  cases htype : typeIdx p.type with
  | none => exact ⟨rfl, rfl, rfl, rfl⟩
  | some t =>
    simp only []
    split
    · split
      · exact ⟨rfl, rfl, rfl, rfl⟩
      · exact ⟨rfl, rfl, rfl, rfl⟩
    · exact ⟨rfl, rfl, rfl, rfl⟩

theorem mutLoop_mem (rng : ℕ → ℚ) (w halfW h halfH subSq : JNum)
    (hc : SpatialHashCfg) (grid : Grid) (ps : List Particle) :
    ∀ (ips : List (ℕ × Particle)) (idx : ℕ),
      ∀ q ∈ (mutLoop rng w halfW h halfH subSq hc grid ps ips idx).1,
        ∃ ip ∈ ips, q.x = ip.2.x ∧ q.y = ip.2.y ∧ q.vx = ip.2.vx ∧ q.vy = ip.2.vy := by
  intro ips
  induction ips with
  | nil =>
    intro idx q hq
    simp [mutLoop] at hq
  | cons ip rest ih =>
    intro idx q hq
    simp only [mutLoop, List.mem_cons] at hq
    rcases hq with hq | hq
    · refine ⟨ip, List.mem_cons_self ip rest, ?_⟩
      have hf := mutateOne_fields rng w halfW h halfH subSq hc grid ps ip.1 ip.2 idx
      rw [hq]
      exact hf
    · obtain ⟨ip2, hmem, he⟩ := ih _ q hq
      exact ⟨ip2, List.mem_cons_of_mem ip hmem, he⟩

/-- `wellPlaced` only looks at position and velocity. -/
theorem wellPlaced_congr {w h : ℚ} {p q : Particle}
    (hx : q.x = p.x) (hy : q.y = p.y) (hvx : q.vx = p.vx) (hvy : q.vy = p.vy)
    (hp : wellPlaced w h p) : wellPlaced w h q := by
  rw [wellPlaced, hx, hy, hvx, hvy]
  exact hp

/-- Every particle coming out of `stepAssemble` is finite and in bounds. -/
theorem stepAssemble_wellPlaced (sq : ℚ → ℚ) (rng : ℕ → ℚ) (hc : SpatialHashCfg)
    (s : SimState) (pcs : List (Particle × ℕ)) {w h : ℚ}
    (hw : s.width = fin w) (hh : s.height = fin h) (h0 : 0 < w) (h1 : 0 < h)
    (hr : rngOk rng) :
    ∀ p ∈ (stepAssemble sq rng hc s pcs).particles, wellPlaced w h p := by
  have hctxw : (stepCtxOf s).w = fin w := by rw [stepCtxOf] at *; exact hw
  have hctxh : (stepCtxOf s).h = fin h := by rw [stepCtxOf] at *; exact hh
  have hmove : ∀ (l : List Particle) (idx : ℕ) (ms : JNum),
      ∀ q ∈ (movePhase rng (stepCtxOf s).w (stepCtxOf s).h (stepCtxOf s).maxVel l idx ms).1,
        wellPlaced w h q := by
    rw [hctxw, hctxh]
    exact movePhase_post rng h0 h1 hr (stepCtxOf s).maxVel
  simp only [stepAssemble]
  intro p hp
  split at hp
  · split at hp
    · rw [mutationPass] at hp
      obtain ⟨ip, hipmem, he1, he2, he3, he4⟩ :=
        mutLoop_mem rng _ _ _ _ _ hc _ _ _ _ p hp
      have hip2 : ip.2 ∈ (movePhase rng (stepCtxOf s).w (stepCtxOf s).h
          (stepCtxOf s).maxVel (pcs.map Prod.fst) s.rngIdx 0).1 :=
        List.getElem?_mem (List.mem_enum_iff_getElem?.1 hipmem)
      exact wellPlaced_congr he1 he2 he3 he4 (hmove _ _ _ ip.2 hip2)
    · exact hmove _ _ _ p hp
  · exact hmove _ _ _ p hp

/-- Completed steps leave every particle finite and inside a positive
world. -/
theorem update_ok_wellPlaced {sq : ℚ → ℚ} {rng : ℕ → ℚ} {s s2 : SimState}
    {w h : ℚ} {hc : SpatialHashCfg}
    (hhash : s.hash = some hc) (hw : s.width = fin w) (hh : s.height = fin h)
    (h0 : 0 < w) (h1 : 0 < h) (hr : rngOk rng)
    (hok : update sq rng s = .ok s2) :
    ∀ p ∈ s2.particles, wellPlaced w h p := by
  have hwne : ¬ s.width = fin 0 := by
    rw [hw]
    intro hcontra
    have hw0 : w = 0 := by injection hcontra
    exact (ne_of_gt h0) hw0
  rw [update, hhash] at hok
  simp only [] at hok
  rw [if_neg hwne] at hok
  cases hf : forcePhase sq (stepCtxOf s) s.particles (buildGrid hc s.particles) hc
        s.particles.enum with
  | error e =>
    rw [hf] at hok
    simp at hok
  | ok pcs =>
    rw [hf] at hok
    simp only [except_map_ok] at hok
    cases hok
    exact stepAssemble_wellPlaced sq rng hc s pcs hw hh h0 h1 hr

/-! ## Totality of the step under valid species indices -/

theorem forceLoop_ok (sq : ℚ → ℚ) (ctx : StepCtx) (ps : List Particle)
    (i : ℕ) (p : Particle) (row : List JNum) :
    ∀ (l : List ℕ) (acc : JNum × JNum × ℕ),
      ∃ acc2, forceLoop sq ctx ps i p (some row) l acc = .ok acc2 := by
  intro l
  induction l with
  | nil => intro acc; exact ⟨acc, rfl⟩
  | cons j rest ih =>
    intro acc
    rw [forceLoop]
    split
    · exact ih acc
    · simp only []
      split
      · exact ih acc
      · exact ih _

theorem forceOne_ok (sq : ℚ → ℚ) (ctx : StepCtx) (ps : List Particle)
    (grid : Grid) (hc : SpatialHashCfg) (i : ℕ) (p : Particle)
    (hty : (listGetJ ctx.rules p.type).isSome = true) :
    ∃ pc, forceOne sq ctx ps grid hc i p = .ok pc := by
  rw [forceOne]
  obtain ⟨row, hrow⟩ := Option.isSome_iff_exists.1 hty
  rw [hrow]
  obtain ⟨acc2, hacc⟩ :=
    forceLoop_ok sq ctx ps i p row (getNearby hc grid p.x p.y) (0, 0, 0)
  rw [hacc]
  exact ⟨_, rfl⟩

theorem forcePhase_ok (sq : ℚ → ℚ) (ctx : StepCtx) (ps : List Particle)
    (grid : Grid) (hc : SpatialHashCfg) :
    ∀ (l : List (ℕ × Particle)),
      (∀ ip ∈ l, (listGetJ ctx.rules ip.2.type).isSome = true) →
      ∃ pcs, forcePhase sq ctx ps grid hc l = .ok pcs := by
  intro l
  induction l with
  | nil => intro _; exact ⟨[], rfl⟩
  | cons ip rest ih =>
    intro hall
    obtain ⟨pc, hpc⟩ := forceOne_ok sq ctx ps grid hc ip.1 ip.2
      (hall ip (List.mem_cons_self ip rest))
    obtain ⟨pcs, hpcs⟩ := ih (fun q hq => hall q (List.mem_cons_of_mem ip hq))
    rw [forcePhase, hpc]
    simp only [except_bind_ok]
    rw [hpcs]
    exact ⟨_, rfl⟩

/-- Under valid species indices the step never throws. -/
theorem update_total {sq : ℚ → ℚ} {rng : ℕ → ℚ} {s : SimState}
    (hty : typesOk s.config.rules s.particles) :
    ∃ s2, update sq rng s = .ok s2 := by
  rw [update]
  cases hh : s.hash with
  | none => exact ⟨s, rfl⟩
  | some hc =>
    simp only []
    by_cases hw : s.width = fin 0
    · rw [if_pos hw]
      exact ⟨s, rfl⟩
    · rw [if_neg hw]
      obtain ⟨pcs, hpcs⟩ := forcePhase_ok sq (stepCtxOf s) s.particles
        (buildGrid hc s.particles) hc s.particles.enum
        (fun ip hip => hty ip.2 (List.getElem?_mem (List.mem_enum_iff_getElem?.1 hip)))
      rw [hpcs]
      exact ⟨_, rfl⟩

/-! ## C1 and C5 -/

theorem lt_nan (x : JNum) : JNum.lt x nan = false := by
  cases x <;> rfl

theorem nan_lt (x : JNum) : JNum.lt nan x = false := by
  cases x <;> rfl

theorem clampVel_nan (maxVel : JNum) : clampVel nan maxVel = nan := by
  rw [clampVel, JNum.gt, lt_nan, nan_lt]
  rfl

theorem nonfin_add_fin {x : JNum} (hx : x.isFin = false) (a : ℚ) :
    (x + fin a).isFin = false := by
  cases x <;> first | rfl | simp [JNum.isFin] at hx

/-- C1: once the world has positive finite dimensions, the end of every
completed step leaves every particle inside `[0, width) × [0, height)`
with finite position and velocity, for every configuration installed by
`updateConfig` and every particle state; and the step always completes
whenever every particle's type indexes an existing rules row (as is the
case for every population the kernel itself creates against a full
6x6 matrix). -/
theorem C1_boundedness (sq : ℚ → ℚ) (rng : ℕ → ℚ) (s : SimState) {w h : ℚ}
    {hc : SpatialHashCfg} (hhash : s.hash = some hc)
    (hw : s.width = fin w) (hh : s.height = fin h)
    (h0 : 0 < w) (h1 : 0 < h) (hr : rngOk rng) :
    (∀ s2, update sq rng s = .ok s2 → ∀ p ∈ s2.particles, wellPlaced w h p) ∧
    (typesOk s.config.rules s.particles → ∃ s2, update sq rng s = .ok s2) :=
  ⟨fun _ hok => update_ok_wellPlaced hhash hw hh h0 h1 hr hok,
   fun hty => update_total hty⟩

/-- Witness for C1 on the two-particle fixture in a 300x300 world. -/
theorem C1_boundedness_witness :
    (∀ s2, update sqN rngZero stRepel = .ok s2 →
        ∀ p ∈ s2.particles, wellPlaced 300 300 p) ∧
    (typesOk stRepel.config.rules stRepel.particles →
        ∃ s2, update sqN rngZero stRepel = .ok s2) :=
  C1_boundedness sqN rngZero stRepel rfl rfl rfl (by norm_num) (by norm_num)
    (fun n => ⟨le_refl 0, by norm_num [rngZero]⟩)

/-- C5 amended: for particle states whose types all index an existing
rules row the step never throws (for out-of-range types it does throw —
see the counterexample); numeric corruption is healed within the same
step: every particle of a completed step in a positively-dimensioned
world ends finite and in bounds; a NaN velocity is zeroed (both
components); and a particle whose position is non-finite is reset to a
fresh random position with zero velocity. -/
theorem C5_amended (sq : ℚ → ℚ) (rng : ℕ → ℚ) (s : SimState)
    (hty : typesOk s.config.rules s.particles) :
    (∃ s2, update sq rng s = .ok s2) ∧
    (∀ (w h : ℚ) (hc : SpatialHashCfg), s.hash = some hc → s.width = fin w →
      s.height = fin h → 0 < w → 0 < h → rngOk rng →
      ∀ s2, update sq rng s = .ok s2 → ∀ p ∈ s2.particles, wellPlaced w h p) ∧
    (∀ (w1 h1 maxVel : JNum) (idx : ℕ) (p : Particle), p.vx = nan →
      (moveOne rng w1 h1 maxVel idx p).1.vx = fin 0 ∧
      (moveOne rng w1 h1 maxVel idx p).1.vy = fin 0) ∧
    (∀ (w h : ℚ) (maxVel : JNum) (idx : ℕ) (p : Particle),
      p.x.isFin = false →
      (moveOne rng (fin w) (fin h) maxVel idx p).1 =
        ⟨fin (rng idx) * fin w, fin (rng (idx + 1)) * fin h, fin 0, fin 0, p.type⟩) := by
  refine ⟨update_total hty,
    fun w h hc hhash hw hh h0 h1 hr s2 hok =>
      update_ok_wellPlaced hhash hw hh h0 h1 hr hok, ?_, ?_⟩
  · intro w1 h1 maxVel idx p hvx
    simp only [moveOne, hvx, clampVel_nan]
    have : (JNum.nan.isFin && (clampVel p.vy maxVel).isFin) = false := rfl
    rw [this]
    simp only [Bool.false_eq_true, if_false]
    split <;> exact ⟨rfl, rfl⟩
  · intro w h maxVel idx p hx
    simp only [moveOne]
    generalize clampVel p.vx maxVel = v1
    generalize clampVel p.vy maxVel = v2
    have hfin : ∃ a : ℚ,
        (if (v1.isFin && v2.isFin) = true then v1 else (0 : JNum)) = fin a := by
      by_cases hf : (v1.isFin && v2.isFin) = true
      · rw [Bool.and_eq_true] at hf
        obtain ⟨a, ha⟩ := isFin_iff.1 hf.1
        exact ⟨a, by rw [if_pos (by rw [Bool.and_eq_true]; exact hf), ha]⟩
      · exact ⟨0, by rw [if_neg hf]; exact jnum_zero⟩
    obtain ⟨a, ha⟩ := hfin
    rw [ha]
    rw [if_neg]
    rfl
    intro hcond
    rw [Bool.and_eq_true] at hcond
    rw [nonfin_add_fin hx a] at hcond
    exact Bool.false_ne_true hcond.1

/-- Witness for C5 amended on the two-particle fixture. -/
theorem C5_amended_witness :
    (∃ s2, update sqN rngZero stRepel = .ok s2) ∧
    (∀ (w h : ℚ) (hc : SpatialHashCfg), stRepel.hash = some hc →
      stRepel.width = fin w → stRepel.height = fin h → 0 < w → 0 < h →
      rngOk rngZero → ∀ s2, update sqN rngZero stRepel = .ok s2 →
        ∀ p ∈ s2.particles, wellPlaced w h p) ∧
    (∀ (w1 h1 maxVel : JNum) (idx : ℕ) (p : Particle), p.vx = nan →
      (moveOne rngZero w1 h1 maxVel idx p).1.vx = fin 0 ∧
      (moveOne rngZero w1 h1 maxVel idx p).1.vy = fin 0) ∧
    (∀ (w h : ℚ) (maxVel : JNum) (idx : ℕ) (p : Particle),
      p.x.isFin = false →
      (moveOne rngZero (fin w) (fin h) maxVel idx p).1 =
        ⟨fin (rngZero idx) * fin w, fin (rngZero (idx + 1)) * fin h, fin 0, fin 0, p.type⟩) :=
  C5_amended sqN rngZero stRepel (by intro p hp; fin_cases hp <;> rfl)

/-! ## C9: arithmetic absorption lemmas -/

theorem add_nan (a : JNum) : (a + nan : JNum) = nan := by
  cases a <;> rfl

theorem mul_nan_left (b : JNum) : (nan * b : JNum) = nan := by
  cases b <;> rfl

theorem div_nan (a : JNum) : (a / nan : JNum) = nan := by
  cases a <;> rfl

theorem le_nan (x : JNum) : JNum.le x nan = false := by
  cases x <;> rfl

theorem sqrt_nan (sq : ℚ → ℚ) : JNum.sqrt sq nan = nan := rfl

theorem zn_add {a b : JNum} (ha : zn a) (hb : zn b) : zn (a + b) := by
  rcases ha with ha | ha <;> rcases hb with hb | hb <;> subst ha <;> subst hb
  · exact Or.inl (by simp)
  · exact Or.inr rfl
  · exact Or.inr rfl
  · exact Or.inr rfl

theorem zn_zero_mul (x : JNum) : zn ((fin 0) * x) := by
  cases x
  · exact Or.inl (by simp)
  · exact Or.inr rfl
  · exact Or.inr (by show JNum.mul (fin 0) inf = nan; simp [JNum.mul])
  · exact Or.inr (by show JNum.mul (fin 0) ninf = nan; simp [JNum.mul])

theorem zn_mul {a : JNum} (ha : zn a) (b : JNum) : zn (a * b) := by
  rcases ha with ha | ha <;> subst ha
  · exact zn_zero_mul b
  · exact Or.inr (mul_nan_left b)

/-! ## C9: the spatial hash only stores valid indices -/

theorem gridAdd_bounded {g : Grid} {n : ℕ} {k : ℤ} {i : ℕ}
    (hg : ∀ kv ∈ g, ∀ j ∈ kv.2, j < n) (hi : i < n) :
    ∀ kv ∈ gridAdd g k i, ∀ j ∈ kv.2, j < n := by
  induction g with
  | nil =>
    intro kv hkv j hj
    simp only [gridAdd, List.mem_singleton] at hkv
    rw [hkv] at hj
    simp only [List.mem_singleton] at hj
    rw [hj]
    exact hi
  | cons e rest ih =>
    intro kv hkv j hj
    simp only [gridAdd] at hkv
    by_cases hk : e.1 = k
    · rw [if_pos hk] at hkv
      rcases List.mem_cons.1 hkv with hkv | hkv
      · rw [hkv] at hj
        rcases List.mem_append.1 hj with hj | hj
        · exact hg e (List.mem_cons_self e rest) j hj
        · simp only [List.mem_singleton] at hj
          rw [hj]
          exact hi
      · exact hg kv (List.mem_cons_of_mem e hkv) j hj
    · rw [if_neg hk] at hkv
      rcases List.mem_cons.1 hkv with hkv | hkv
      · rw [hkv] at hj
        exact hg e (List.mem_cons_self e rest) j hj
      · exact ih (fun q hq => hg q (List.mem_cons_of_mem e hq)) kv hkv j hj

theorem buildGrid_bounded (hc : SpatialHashCfg) (ps : List Particle) :
    ∀ kv ∈ buildGrid hc ps, ∀ j ∈ kv.2, j < ps.length := by
  have aux : ∀ (l : List (ℕ × Particle)) (g : Grid),
      (∀ ip ∈ l, ip.1 < ps.length) →
      (∀ kv ∈ g, ∀ j ∈ kv.2, j < ps.length) →
      ∀ kv ∈ l.foldl (fun g2 ip => hashAdd hc g2 ip.1 ip.2) g, ∀ j ∈ kv.2,
        j < ps.length := by
    intro l
    induction l with
    | nil => intro g _ hg; exact hg
    | cons ip rest ih =>
      intro g hl hg
      exact ih _ (fun q hq => hl q (List.mem_cons_of_mem ip hq))
        (gridAdd_bounded hg (hl ip (List.mem_cons_self ip rest)))
  refine aux ps.enum [] (fun ip hip => ?_) (fun kv hkv => by cases hkv)
  have hg := List.mem_enum_iff_getElem?.1 hip
  exact (List.getElem?_eq_some_iff.1 hg).1

theorem getNearby_bounded (hc : SpatialHashCfg) (ps : List Particle) (x y : JNum) :
    ∀ j ∈ getNearby hc (buildGrid hc ps) x y, j < ps.length := by
  intro j hj
  simp only [getNearby, List.mem_flatMap] at hj
  obtain ⟨dx, _, dy, _, hj⟩ := hj
  rw [gridGet] at hj
  cases hfind : (buildGrid hc ps).find?
      (fun e => e.1 = cellKey (wrapCell (JNum.floor (x / hc.cellSize) + fin dx) hc.cellsW)
        (wrapCell (JNum.floor (y / hc.cellSize) + fin dy) hc.cellsH)) with
  | none =>
    rw [hfind] at hj
    simp at hj
  | some e =>
    rw [hfind] at hj
    exact buildGrid_bounded hc ps e (List.mem_of_find?_eq_some hfind) j hj

/-! ## C9: the force loop on an isolated resting particle -/

theorem outsideWindowB_spec {w halfW h halfH : JNum} {r : ℚ} {p q : Particle}
    (hB : outsideWindowB w halfW h halfH r p q = true) {v : ℚ}
    (hv : wrapDelta (q.x - p.x) w halfW * wrapDelta (q.x - p.x) w halfW +
      wrapDelta (q.y - p.y) h halfH * wrapDelta (q.y - p.y) h halfH = fin v) :
    v < 1/100 ∨ r ≤ v := by
  simp only [outsideWindowB] at hB
  rw [hv] at hB
  simpa using hB

theorem forceLoop_zn (sq : ℚ → ℚ) (ctx : StepCtx) (ps : List Particle) (i : ℕ)
    (P : Particle) (row : List JNum) {r : ℚ} (hr : ctx.rSq = fin r) :
    ∀ (l : List ℕ) (acc : JNum × JNum × ℕ),
      (∀ j ∈ l, j ≠ i →
        outsideWindowB ctx.w ctx.halfW ctx.h ctx.halfH r P (ps.getD j default) = true) →
      zn acc.1 → zn acc.2.1 →
      ∃ acc2, forceLoop sq ctx ps i P (some row) l acc = .ok acc2 ∧
        zn acc2.1 ∧ zn acc2.2.1 := by
  intro l
  induction l with
  | nil =>
    intro acc _ h1 h2
    exact ⟨acc, rfl, h1, h2⟩
  | cons j rest ih =>
    intro acc hsafe h1 h2
    have hsub : ∀ j2 ∈ rest, j2 ≠ i →
        outsideWindowB ctx.w ctx.halfW ctx.h ctx.halfH r P (ps.getD j2 default) = true :=
      fun j2 hj2 => hsafe j2 (List.mem_cons_of_mem j hj2)
    rw [forceLoop]
    by_cases hj : j = i
    · rw [if_pos hj]
      exact ih acc hsub h1 h2
    · rw [if_neg hj]
      simp only []
      cases hD : wrapDelta ((ps.getD j default).x - P.x) ctx.w ctx.halfW *
            wrapDelta ((ps.getD j default).x - P.x) ctx.w ctx.halfW +
          wrapDelta ((ps.getD j default).y - P.y) ctx.h ctx.halfH *
            wrapDelta ((ps.getD j default).y - P.y) ctx.h ctx.halfH with
      | fin v =>
        rw [hr]
        have hwin := outsideWindowB_spec (hsafe j (List.mem_cons_self j rest) hj) hD
        have hcond : (JNum.ge (fin v) (fin r) || JNum.lt (fin v) (fin (1/100))) = true := by
          simp only [JNum.ge, le_fin, lt_fin, Bool.or_eq_true, decide_eq_true_eq]
          rcases hwin with hwin | hwin
          · exact Or.inr hwin
          · exact Or.inl hwin
        rw [if_pos hcond]
        exact ih acc hsub h1 h2
      | nan =>
        rw [hr]
        have hcond : (JNum.ge nan (fin r) || JNum.lt nan (fin (1/100))) = false := rfl
        rw [if_neg (by rw [hcond]; exact Bool.false_ne_true)]
        rw [sqrt_nan]
        refine ih _ hsub (Or.inr ?_) (Or.inr ?_)
        · show acc.1 + wrapDelta ((ps.getD j default).x - P.x) ctx.w ctx.halfW / nan *
              (particleLifeForce (nan * ctx.invR)
                ((listGetJ row (ps.getD j default).type).getD nan) ctx.beta * ctx.fs) = nan
          rw [div_nan, mul_nan_left, add_nan]
        · show acc.2.1 + wrapDelta ((ps.getD j default).y - P.y) ctx.h ctx.halfH / nan *
              (particleLifeForce (nan * ctx.invR)
                ((listGetJ row (ps.getD j default).type).getD nan) ctx.beta * ctx.fs) = nan
          rw [div_nan, mul_nan_left, add_nan]
      | inf =>
        rw [hr]
        have hcond : (JNum.ge inf (fin r) || JNum.lt inf (fin (1/100))) = true := rfl
        rw [if_pos hcond]
        exact ih acc hsub h1 h2
      | ninf =>
        rw [hr]
        have hcond : (JNum.ge ninf (fin r) || JNum.lt ninf (fin (1/100))) = true := by
          have hlt : JNum.lt ninf (fin (1/100)) = true := rfl
          rw [hlt, Bool.or_true]
        rw [if_pos hcond]
        exact ih acc hsub h1 h2

/-! ## C9: the step fixes an isolated resting particle -/

theorem clampVel_zero {maxVel : JNum} (hmv : JNum.gt (fin 0) maxVel = false) :
    clampVel (fin 0) maxVel = fin 0 := by
  rw [clampVel, hmv, if_neg Bool.false_ne_true]
  cases maxVel with
  | fin m =>
    have hm : ¬ m < 0 := by simpa [JNum.gt] using hmv
    simp only [fin_neg, lt_fin, decide_eq_true_eq]
    rw [if_neg]
    intro hcon
    exact hm (neg_pos.1 hcon)
  | nan => rfl
  | inf => rfl
  | ninf => simp [JNum.gt, JNum.lt] at hmv

/-- Moving a particle that is at rest (zero-or-NaN velocities) inside a
positive finite world changes nothing: the NaN is healed to zero, the
wrap fixes the in-bounds position, and no random draw is consumed. -/
theorem moveOne_resting (rng : ℕ → ℚ) {w h : ℚ} {maxVel : JNum}
    (hmv : JNum.gt (fin 0) maxVel = false) (idx : ℕ) {p : Particle}
    {px py : ℚ} (hpx : p.x = fin px) (hpx0 : 0 ≤ px) (hpxw : px < w)
    (hpy : p.y = fin py) (hpy0 : 0 ≤ py) (hpyh : py < h)
    (hvx : zn p.vx) (hvy : zn p.vy) :
    moveOne rng (fin w) (fin h) maxVel idx p =
      (⟨fin px, fin py, fin 0, fin 0, p.type⟩, idx, fin 0) := by
  have hvv : ∀ v : JNum, zn v →
      clampVel v maxVel = fin 0 ∨ clampVel v maxVel = nan := by
    intro v hv
    rcases hv with hv | hv <;> rw [hv]
    · exact Or.inl (clampVel_zero hmv)
    · exact Or.inr (clampVel_nan maxVel)
  have hx2 : (if ((clampVel p.vx maxVel).isFin && (clampVel p.vy maxVel).isFin) = true
      then clampVel p.vx maxVel else 0) = fin 0 := by
    rcases hvv p.vx hvx with h1 | h1 <;> rcases hvv p.vy hvy with h2 | h2 <;>
      rw [h1, h2] <;> rfl
  have hy2 : (if ((clampVel p.vx maxVel).isFin && (clampVel p.vy maxVel).isFin) = true
      then clampVel p.vy maxVel else 0) = fin 0 := by
    rcases hvv p.vx hvx with h1 | h1 <;> rcases hvv p.vy hvy with h2 | h2 <;>
      rw [h1, h2] <;> rfl
  simp only [moveOne]
  rw [hx2, hy2, hpx, hpy]
  simp only [fin_mul, fin_add, mul_zero, add_zero, zero_add, isFin_fin, Bool.and_self]
  rw [if_pos trivial]
  rw [wrapPos_fixed hpx0 hpxw, wrapPos_fixed hpy0 hpyh]

theorem isolatedB_spec {s : SimState} {i : ℕ} {P : Particle} {r : ℚ}
    (h : isolatedB s i P r = true) :
    ∀ j, j < s.particles.length → j ≠ i →
      outsideWindowB (stepCtxOf s).w (stepCtxOf s).halfW (stepCtxOf s).h
        (stepCtxOf s).halfH r P (s.particles.getD j default) = true := by
  intro j hj hij
  rw [isolatedB, List.all_eq_true] at h
  have hjj := h j (List.mem_range.2 hj)
  rw [Bool.or_eq_true] at hjj
  rcases hjj with h1 | h1
  · exact absurd (by simpa using h1) hij
  · exact h1

/-- On an isolated resting particle the force phase completes, leaves its
position and type untouched, and produces a zero-or-NaN velocity. -/
theorem forceOne_resting (sq : ℚ → ℚ) (ctx : StepCtx) (ps : List Particle)
    (hc : SpatialHashCfg) {r : ℚ} (i : ℕ) (P : Particle) (row : List JNum)
    (hr : ctx.rSq = fin r) (hmfa : ctx.mfActive = false)
    (hrow : listGetJ ctx.rules P.type = some row)
    (hsafe : ∀ j, j < ps.length → j ≠ i →
      outsideWindowB ctx.w ctx.halfW ctx.h ctx.halfH r P (ps.getD j default) = true) :
    ∃ pc, forceOne sq ctx ps (buildGrid hc ps) hc i P = .ok pc ∧
      pc.1.x = P.x ∧ pc.1.y = P.y ∧ pc.1.type = P.type ∧
      (P.vx = fin 0 → zn pc.1.vx) ∧ (P.vy = fin 0 → zn pc.1.vy) := by
  obtain ⟨acc2, hacc, hz1, hz2⟩ := forceLoop_zn sq ctx ps i P row hr
    (getNearby hc (buildGrid hc ps) P.x P.y) (0, 0, 0)
    (fun j hj hij => hsafe j (getNearby_bounded hc ps P.x P.y j hj) hij)
    (Or.inl rfl) (Or.inl rfl)
  obtain ⟨f1, f2, cnt⟩ := acc2
  rw [forceOne, hrow, hacc]
  refine ⟨_, rfl, rfl, rfl, rfl, ?_, ?_⟩
  · intro hvx
    rw [hmfa]
    show zn (P.vx * (fin 1 - ctx.friction) + f1 * ctx.dt)
    rw [hvx]
    exact zn_add (zn_zero_mul _) (zn_mul hz1 ctx.dt)
  · intro hvy
    rw [hmfa]
    show zn (P.vy * (fin 1 - ctx.friction) + f2 * ctx.dt)
    rw [hvy]
    exact zn_add (zn_zero_mul _) (zn_mul hz2 ctx.dt)

/-- The force phase output is positionally the `forceOne` of the
corresponding input. -/
theorem forcePhase_get (sq : ℚ → ℚ) (ctx : StepCtx) (ps : List Particle)
    (grid : Grid) (hc : SpatialHashCfg) :
    ∀ (l : List (ℕ × Particle)) (pcs : List (Particle × ℕ)),
      forcePhase sq ctx ps grid hc l = .ok pcs →
      ∀ (k : ℕ) (ip : ℕ × Particle), l.get? k = some ip →
      ∃ pc, pcs.get? k = some pc ∧
        forceOne sq ctx ps grid hc ip.1 ip.2 = .ok pc := by
  intro l
  induction l with
  | nil =>
    intro pcs hok k ip hip
    simp at hip
  | cons jp rest ih =>
    intro pcs hok k ip hip
    rw [forcePhase] at hok
    cases h1 : forceOne sq ctx ps grid hc jp.1 jp.2 with
    | error e =>
      rw [h1] at hok
      rw [except_bind_er] at hok
      exact absurd hok (by intro hcon; cases hcon)
    | ok pc0 =>
      rw [h1] at hok
      rw [except_bind_ok] at hok
      cases h2 : forcePhase sq ctx ps grid hc rest with
      | error e =>
        rw [h2] at hok
        rw [except_bind_er] at hok
        exact absurd hok (by intro hcon; cases hcon)
      | ok pcs0 =>
        rw [h2] at hok
        rw [except_bind_ok] at hok
        cases hok
        cases k with
        | zero =>
          rw [List.get?_cons_zero] at hip
          injection hip with hip
          refine ⟨pc0, List.get?_cons_zero, ?_⟩
          rw [← hip]
          exact h1
        | succ k =>
          rw [List.get?_cons_succ] at hip
          obtain ⟨pc, hpc, hfo⟩ := ih pcs0 h2 k ip hip
          exact ⟨pc, by rw [List.get?_cons_succ]; exact hpc, hfo⟩

/-- Every force phase output arises as the `forceOne` of some input. -/
theorem forcePhase_mem (sq : ℚ → ℚ) (ctx : StepCtx) (ps : List Particle)
    (grid : Grid) (hc : SpatialHashCfg) :
    ∀ (l : List (ℕ × Particle)) (pcs : List (Particle × ℕ)),
      forcePhase sq ctx ps grid hc l = .ok pcs →
      ∀ pc ∈ pcs, ∃ ip ∈ l, forceOne sq ctx ps grid hc ip.1 ip.2 = .ok pc := by
  intro l
  induction l with
  | nil =>
    intro pcs hok pc hpc
    rw [forcePhase] at hok
    cases hok
    simp at hpc
  | cons jp rest ih =>
    intro pcs hok pc hpc
    rw [forcePhase] at hok
    cases h1 : forceOne sq ctx ps grid hc jp.1 jp.2 with
    | error e =>
      rw [h1] at hok
      rw [except_bind_er] at hok
      exact absurd hok (by intro hcon; cases hcon)
    | ok pc0 =>
      rw [h1] at hok
      rw [except_bind_ok] at hok
      cases h2 : forcePhase sq ctx ps grid hc rest with
      | error e =>
        rw [h2] at hok
        rw [except_bind_er] at hok
        exact absurd hok (by intro hcon; cases hcon)
      | ok pcs0 =>
        rw [h2] at hok
        rw [except_bind_ok] at hok
        cases hok
        rcases List.mem_cons.1 hpc with hpc | hpc
        · refine ⟨jp, List.mem_cons_self jp rest, ?_⟩
          rw [h1, hpc]
        · obtain ⟨ip2, hip2, hfo⟩ := ih pcs0 h2 pc hpc
          exact ⟨ip2, List.mem_cons_of_mem jp hip2, hfo⟩

/-- The velocity update of `forceOne` never changes the type. -/
theorem forceOne_type {sq : ℚ → ℚ} {ctx : StepCtx} {ps : List Particle}
    {grid : Grid} {hc : SpatialHashCfg} {i : ℕ} {p : Particle} {pc : Particle × ℕ}
    (hok : forceOne sq ctx ps grid hc i p = .ok pc) : pc.1.type = p.type := by
  rw [forceOne] at hok
  cases hl : forceLoop sq ctx ps i p (listGetJ ctx.rules p.type)
      (getNearby hc grid p.x p.y) (0, 0, 0) with
  | error e =>
    rw [hl] at hok
    rw [except_bind_er] at hok
    exact absurd hok (by intro hcon; cases hcon)
  | ok acc =>
    obtain ⟨f1, f2, cnt⟩ := acc
    rw [hl] at hok
    rw [except_bind_ok] at hok
    simp only [] at hok
    cases hok
    rfl

/-- The move pass never changes the type. -/
theorem moveOne_type (rng : ℕ → ℚ) (w h maxVel : JNum) (idx : ℕ) (p : Particle) :
    (moveOne rng w h maxVel idx p).1.type = p.type := by
  simp only [moveOne]
  split <;> split <;> rfl

/-- The move pass output is positionally the `moveOne` of the input at
some random cursor. -/
theorem movePhase_get (rng : ℕ → ℚ) (w h maxVel : JNum) :
    ∀ (l : List Particle) (idx : ℕ) (ms : JNum) (k : ℕ) (p : Particle),
      l.get? k = some p →
      ∃ j, (movePhase rng w h maxVel l idx ms).1.get? k =
        some (moveOne rng w h maxVel j p).1 := by
  intro l
  induction l with
  | nil =>
    intro idx ms k p hp
    simp at hp
  | cons q rest ih =>
    intro idx ms k p hp
    cases k with
    | zero =>
      rw [List.get?_cons_zero] at hp
      injection hp with hp
      refine ⟨idx, ?_⟩
      simp only [movePhase]
      rw [List.get?_cons_zero, hp]
    | succ k =>
      rw [List.get?_cons_succ] at hp
      obtain ⟨j, hj⟩ := ih ((moveOne rng w h maxVel idx q).2.1)
        (if JNum.gt (moveOne rng w h maxVel idx q).2.2 ms
         then (moveOne rng w h maxVel idx q).2.2 else ms) k p hp
      refine ⟨j, ?_⟩
      simp only [movePhase]
      rw [List.get?_cons_succ]
      exact hj

/-- Every move pass output keeps the type of some input particle. -/
theorem movePhase_type_mem (rng : ℕ → ℚ) (w h maxVel : JNum) :
    ∀ (l : List Particle) (idx : ℕ) (ms : JNum),
      ∀ q ∈ (movePhase rng w h maxVel l idx ms).1, ∃ p ∈ l, q.type = p.type := by
  intro l
  induction l with
  | nil =>
    intro idx ms q hq
    simp [movePhase] at hq
  | cons p rest ih =>
    intro idx ms q hq
    simp only [movePhase, List.mem_cons] at hq
    rcases hq with hq | hq
    · refine ⟨p, List.mem_cons_self p rest, ?_⟩
      rw [hq]
      exact moveOne_type rng w h maxVel idx p
    · obtain ⟨p2, hp2, ht⟩ := ih _ _ q hq
      exact ⟨p2, List.mem_cons_of_mem p hp2, ht⟩

/-- `stepAssemble` touches none of the configuration, dimensions, hash
and mouse fields. -/
theorem stepAssemble_fields (sq : ℚ → ℚ) (rng : ℕ → ℚ) (hc : SpatialHashCfg)
    (s : SimState) (pcs : List (Particle × ℕ)) :
    (stepAssemble sq rng hc s pcs).config = s.config ∧
    (stepAssemble sq rng hc s pcs).width = s.width ∧
    (stepAssemble sq rng hc s pcs).height = s.height ∧
    (stepAssemble sq rng hc s pcs).hash = s.hash ∧
    (stepAssemble sq rng hc s pcs).mouse = s.mouse :=
  ⟨rfl, rfl, rfl, rfl, rfl⟩

/-- With mutation disabled the particles coming out of `stepAssemble`
are exactly the move pass output. -/
theorem stepAssemble_particles (sq : ℚ → ℚ) (rng : ℕ → ℚ) (hc : SpatialHashCfg)
    (s : SimState) (pcs : List (Particle × ℕ))
    (hmut : s.config.mutationEnabled = false) :
    (stepAssemble sq rng hc s pcs).particles =
      (movePhase rng (stepCtxOf s).w (stepCtxOf s).h (stepCtxOf s).maxVel
        (pcs.map Prod.fst) s.rngIdx 0).1 := by
  rw [stepAssemble]
  simp only [hmut, Bool.false_eq_true, if_false]

/-- `stepCtxOf` only reads the config, dimensions and mouse. -/
theorem stepCtxOf_congr {t s : SimState} (hcf : t.config = s.config)
    (hw : t.width = s.width) (hh : t.height = s.height)
    (hm : t.mouse = s.mouse) : stepCtxOf t = stepCtxOf s := by
  rw [stepCtxOf, stepCtxOf, hcf, hw, hh, hm]

/-- One step on a state holding an isolated resting particle: the step
completes, the particle is bit-for-bit unchanged, the step-relevant
fields are preserved, and every particle keeps a type present before. -/
theorem update_resting (sq : ℚ → ℚ) (rng : ℕ → ℚ) {t : SimState}
    {hc : SpatialHashCfg} {w h r px py : ℚ} {row : List JNum} {i : ℕ}
    {P : Particle}
    (hhash : t.hash = some hc) (hw : t.width = fin w) (h0 : 0 < w)
    (hh : t.height = fin h) (h1 : 0 < h)
    (hr : (stepCtxOf t).rSq = fin r)
    (hmfa : (stepCtxOf t).mfActive = false)
    (hmv : JNum.gt (fin 0) (stepCtxOf t).maxVel = false)
    (hmut : t.config.mutationEnabled = false)
    (hrow : listGetJ (stepCtxOf t).rules P.type = some row)
    (hty : typesOk t.config.rules t.particles)
    (hP : t.particles.get? i = some P)
    (hvx : P.vx = fin 0) (hvy : P.vy = fin 0)
    (hpx : P.x = fin px) (hpx0 : 0 ≤ px) (hpxw : px < w)
    (hpy : P.y = fin py) (hpy0 : 0 ≤ py) (hpyh : py < h)
    (hiso : isolatedB t i P r = true) :
    ∃ t2, update sq rng t = .ok t2 ∧ t2.particles.get? i = some P ∧
      t2.config = t.config ∧ t2.width = t.width ∧ t2.height = t.height ∧
      t2.hash = t.hash ∧ t2.mouse = t.mouse ∧
      ∀ p ∈ t2.particles, ∃ q ∈ t.particles, p.type = q.type := by
  have hwne : ¬ t.width = fin 0 := by
    rw [hw]
    intro hcontra
    have hw0 : w = 0 := by injection hcontra
    exact (ne_of_gt h0) hw0
  obtain ⟨pcs, hpcs⟩ := forcePhase_ok sq (stepCtxOf t) t.particles
    (buildGrid hc t.particles) hc t.particles.enum
    (fun ip hip => hty ip.2 (List.getElem?_mem (List.mem_enum_iff_getElem?.1 hip)))
  have hupd : update sq rng t = .ok (stepAssemble sq rng hc t pcs) := by
    rw [update, hhash]
    simp only []
    rw [if_neg hwne, hpcs]
    rfl
  have henum : t.particles.enum.get? i = some (i, P) := by
    rw [List.get?_eq_getElem?] at hP
    rw [List.get?_eq_getElem?, List.getElem?_enum, hP]
    rfl
  obtain ⟨pc, hpcget, hfo⟩ := forcePhase_get sq (stepCtxOf t) t.particles
    (buildGrid hc t.particles) hc t.particles.enum pcs hpcs i (i, P) henum
  have hfo1 : forceOne sq (stepCtxOf t) t.particles (buildGrid hc t.particles)
      hc i P = .ok pc := hfo
  obtain ⟨pc2, hfo2, hx2, hy2, ht2, hzx, hzy⟩ := forceOne_resting sq (stepCtxOf t)
    t.particles hc i P row hr hmfa hrow (fun j hj hij => isolatedB_spec hiso j hj hij)
  have hpceq : pc = pc2 := by
    rw [hfo1] at hfo2
    exact Except.ok.inj hfo2
  subst hpceq
  have hPeta : P = ⟨fin px, fin py, fin 0, fin 0, P.type⟩ := by
    calc P = ⟨P.x, P.y, P.vx, P.vy, P.type⟩ := rfl
      _ = ⟨fin px, fin py, fin 0, fin 0, P.type⟩ := by rw [hpx, hpy, hvx, hvy]
  have hmap : (pcs.map Prod.fst).get? i = some pc.1 := by
    rw [List.get?_eq_getElem?] at hpcget
    rw [List.get?_eq_getElem?, List.getElem?_map, hpcget]
    rfl
  have hctxw : (stepCtxOf t).w = fin w := hw
  have hctxh : (stepCtxOf t).h = fin h := hh
  obtain ⟨j, hj⟩ := movePhase_get rng (stepCtxOf t).w (stepCtxOf t).h
    (stepCtxOf t).maxVel (pcs.map Prod.fst) t.rngIdx 0 i pc.1 hmap
  have hj2 : (movePhase rng (stepCtxOf t).w (stepCtxOf t).h (stepCtxOf t).maxVel
      (pcs.map Prod.fst) t.rngIdx 0).1.get? i = some P := by
    rw [hj, hctxw, hctxh]
    have hres := moveOne_resting rng hmv j
      (show pc.1.x = fin px by rw [hx2, hpx]) hpx0 hpxw
      (show pc.1.y = fin py by rw [hy2, hpy]) hpy0 hpyh
      (hzx hvx) (hzy hvy)
    rw [hres, ht2, ← hPeta]
  refine ⟨stepAssemble sq rng hc t pcs, hupd, ?_, rfl, rfl, rfl, rfl, rfl, ?_⟩
  · rw [stepAssemble_particles sq rng hc t pcs hmut]
    exact hj2
  · rw [stepAssemble_particles sq rng hc t pcs hmut]
    intro p hp
    obtain ⟨q, hq, hqt⟩ := movePhase_type_mem rng (stepCtxOf t).w (stepCtxOf t).h
      (stepCtxOf t).maxVel (pcs.map Prod.fst) t.rngIdx 0 p hp
    obtain ⟨pcq, hpcq, hqe⟩ := List.mem_map.1 hq
    obtain ⟨ip, hip, hfoq⟩ := forcePhase_mem sq (stepCtxOf t) t.particles
      (buildGrid hc t.particles) hc t.particles.enum pcs hpcs pcq hpcq
    refine ⟨ip.2, List.getElem?_mem (List.mem_enum_iff_getElem?.1 hip), ?_⟩
    rw [hqt, ← hqe]
    exact forceOne_type hfoq

/-- C9: corrected.  The claim as stated is false — see the counterexample:
a particle whose rules row is all zeros and whose velocity is zero drifts
as soon as another particle sits in its repulsion band, because the
repulsion branch of the force law ignores the attraction coefficient.
What does hold (amended): a resting particle (zero velocity, finite
in-bounds position) is bit-for-bit fixed by every one of `n` steps, for
an arbitrary rules row, provided the pointer force is inactive, mutation
is disabled, the velocity clamp bound is not negative, and at the start
of every step each other particle is outside its interaction window
(wrapped squared distance below 0.01 or at least `maxRadius`
squared). -/
theorem C9_amended (sq : ℚ → ℚ) (rng : ℕ → ℚ) (s : SimState) (i : ℕ)
    (P : Particle) (row : List JNum) {hc : SpatialHashCfg} {w h r px py : ℚ}
    (hhash : s.hash = some hc) (hw : s.width = fin w) (h0 : 0 < w)
    (hh : s.height = fin h) (h1 : 0 < h)
    (hr : (stepCtxOf s).rSq = fin r)
    (hmfa : (stepCtxOf s).mfActive = false)
    (hmv : JNum.gt (fin 0) (stepCtxOf s).maxVel = false)
    (hmut : s.config.mutationEnabled = false)
    (hrow : listGetJ (stepCtxOf s).rules P.type = some row)
    (hty : typesOk s.config.rules s.particles)
    (hP : s.particles.get? i = some P)
    (hvx : P.vx = fin 0) (hvy : P.vy = fin 0)
    (hpx : P.x = fin px) (hpx0 : 0 ≤ px) (hpxw : px < w)
    (hpy : P.y = fin py) (hpy0 : 0 ≤ py) (hpyh : py < h)
    (n : ℕ)
    (hiso : ∀ k t2, k < n → stepN sq rng k s = some t2 →
      isolatedB t2 i P r = true) :
    ∃ t, stepN sq rng n s = some t ∧ t.particles.get? i = some P := by
  have main : ∀ m, (∀ k t2, k < m → stepN sq rng k s = some t2 →
        isolatedB t2 i P r = true) →
      ∃ t2, stepN sq rng m s = some t2 ∧ t2.particles.get? i = some P ∧
        t2.config = s.config ∧ t2.width = s.width ∧ t2.height = s.height ∧
        t2.hash = s.hash ∧ t2.mouse = s.mouse ∧
        typesOk s.config.rules t2.particles := by
    intro m
    induction m with
    | zero => exact fun _ => ⟨s, rfl, hP, rfl, rfl, rfl, rfl, rfl, hty⟩
    | succ m ih =>
      intro hisom
      obtain ⟨t2, hstep, hPt, hcfg, hwid, hhei, hha, hmou, htyt⟩ :=
        ih (fun k u hk hu => hisom k u (Nat.lt_succ_of_lt hk) hu)
      have hctx : stepCtxOf t2 = stepCtxOf s := stepCtxOf_congr hcfg hwid hhei hmou
      have hisot : isolatedB t2 i P r = true :=
        hisom m t2 (Nat.lt_succ_self m) hstep
      obtain ⟨t3, hupd, hPt3, hcfg3, hwid3, hhei3, hha3, hmou3, htymem⟩ :=
        update_resting sq rng (by rw [hha]; exact hhash) (by rw [hwid]; exact hw)
          h0 (by rw [hhei]; exact hh) h1 (by rw [hctx]; exact hr)
          (by rw [hctx]; exact hmfa) (by rw [hctx]; exact hmv)
          (by rw [hcfg]; exact hmut) (by rw [hctx]; exact hrow)
          (by rw [hcfg]; exact htyt) hPt hvx hvy hpx hpx0 hpxw hpy hpy0 hpyh hisot
      refine ⟨t3, ?_, hPt3, by rw [hcfg3, hcfg], by rw [hwid3, hwid],
        by rw [hhei3, hhei], by rw [hha3, hha], by rw [hmou3, hmou], ?_⟩
      · simp only [stepN]
        rw [hstep]
        show (update sq rng t2).toOption = some t3
        rw [hupd]
        rfl
      · intro p hp
        obtain ⟨q, hq, hqt⟩ := htymem p hp
        have hq2 := htyt q hq
        rw [hqt]
        exact hq2
  obtain ⟨t2, ha, hb, _⟩ := main n hiso
  exact ⟨t2, ha, hb⟩

/-- Witness for C9 amended: one step of the far-apart two-particle
fixture leaves the resting type-0 particle untouched. -/
theorem C9_amended_witness :
    ∃ t, stepN sqN rngZero 1 stFar = some t ∧
      t.particles.get? 0 = some ⟨fin 50, fin 50, fin 0, fin 0, fin 0⟩ :=
  C9_amended sqN rngZero stFar 0 ⟨fin 50, fin 50, fin 0, fin 0, fin 0⟩
    (List.replicate PARTICLE_TYPES (fin 0)) rfl rfl (by norm_num) rfl
    (by norm_num) rfl rfl (by with_unfolding_all decide) rfl
    (by with_unfolding_all decide) (by intro p hp; fin_cases hp <;> rfl) rfl rfl
    rfl rfl (by norm_num) (by norm_num) rfl (by norm_num) (by norm_num) 1
    (by
      intro k t2 hk ht
      have hk0 : k = 0 := Nat.lt_one_iff.1 hk
      subst hk0
      simp only [stepN] at ht
      injection ht with ht
      subst ht
      with_unfolding_all decide)

/-! ## C6: toroidal neighbour detection on exact-multiple widths -/

theorem jmax_fin (a b : ℚ) : JNum.jmax (fin a) (fin b) = fin (max a b) := by
  show (if JNum.lt (fin a) (fin b) = true then fin b else fin a) = fin (max a b)
  simp only [lt_fin, decide_eq_true_eq]
  split
  · rename_i hab
    rw [max_eq_right (le_of_lt hab)]
  · rename_i hab
    rw [max_eq_left (le_of_not_lt hab)]

theorem wrapCell_fin (a m : ℚ) : wrapCell (fin a) (fin m) =
    if a < 0 then fin (a + m) else if m ≤ a then fin (a - m) else fin a := by
  rw [wrapCell]
  simp only [jnum_zero, lt_fin, JNum.ge, le_fin, decide_eq_true_eq, fin_add, fin_sub]

theorem gridGet_nil (k : ℤ) : gridGet [] k = [] := rfl

theorem gridGet_cons_eq {k : ℤ} {l : List ℕ} (g : Grid) :
    gridGet ((k, l) :: g) k = l := by
  rw [gridGet, List.find?_cons_of_pos]
  · rfl
  · simp

theorem gridGet_cons_ne {k0 k : ℤ} {l : List ℕ} (g : Grid) (h : ¬ k0 = k) :
    gridGet ((k0, l) :: g) k = gridGet g k := by
  rw [gridGet, gridGet, List.find?_cons_of_neg]
  simp [h]

theorem gridGet_gridAdd_self : ∀ (g : Grid) (k : ℤ) (i : ℕ),
    gridGet (gridAdd g k i) k = gridGet g k ++ [i] := by
  intro g
  induction g with
  | nil =>
    intro k i
    rw [gridAdd, gridGet_cons_eq, gridGet_nil]
    rfl
  | cons e rest ih =>
    intro k i
    obtain ⟨k0, l⟩ := e
    rw [gridAdd]
    by_cases hk : k0 = k
    · rw [if_pos hk]
      subst hk
      rw [gridGet_cons_eq, gridGet_cons_eq]
    · rw [if_neg hk]
      rw [gridGet_cons_ne _ hk, gridGet_cons_ne _ hk]
      exact ih k i

theorem gridGet_gridAdd_other : ∀ (g : Grid) {k k2 : ℤ} (i : ℕ), ¬ k2 = k →
    gridGet (gridAdd g k i) k2 = gridGet g k2 := by
  intro g
  induction g with
  | nil =>
    intro k k2 i hne
    rw [gridAdd, gridGet_cons_ne _ (fun hcon => hne hcon.symm), gridGet_nil]
  | cons e rest ih =>
    intro k k2 i hne
    obtain ⟨k0, l⟩ := e
    rw [gridAdd]
    by_cases hk : k0 = k
    · rw [if_pos hk]
      subst hk
      rw [gridGet_cons_ne _ (fun hcon => hne hcon.symm),
        gridGet_cons_ne _ (fun hcon => hne hcon.symm)]
    · rw [if_neg hk]
      by_cases h2 : k0 = k2
      · subst h2
        rw [gridGet_cons_eq, gridGet_cons_eq]
      · rw [gridGet_cons_ne _ h2, gridGet_cons_ne _ h2]
        exact ih i hne

/-- C6: corrected.  As stated — for every width greater than 10 — the
claim is false: the counterexample (width 31, cell size 10) has a cells
count of 4 covering the virtual range `[0, 40)`, so the bucket wrap maps
no queried bucket onto the bucket of `x = 26`, and the two particles do
not see each other.  Amended: when the width is an exact multiple
`k * cellSize` (`k ≥ 2`, `cellSize ≥ 10`, any positive height), the
particle at `x = width - 5` and the particle at `x = 5` (same `y = 5`)
each appear in the other's wrapped 3x3 neighbourhood query, and the
wrapped displacement between them has magnitude exactly 10 in both
directions. -/
theorem C6_amended (k : ℕ) (c h2 : ℚ) (hk : 2 ≤ k) (hc10 : 10 ≤ c) (hh2 : 0 < h2) :
    1 ∈ getNearby (mkHash (fin c) (fin (k * c)) (fin h2))
        (buildGrid (mkHash (fin c) (fin (k * c)) (fin h2))
          [⟨fin (k * c - 5), fin 5, fin 0, fin 0, fin 0⟩,
           ⟨fin 5, fin 5, fin 0, fin 0, fin 1⟩])
        (fin (k * c - 5)) (fin 5) ∧
    0 ∈ getNearby (mkHash (fin c) (fin (k * c)) (fin h2))
        (buildGrid (mkHash (fin c) (fin (k * c)) (fin h2))
          [⟨fin (k * c - 5), fin 5, fin 0, fin 0, fin 0⟩,
           ⟨fin 5, fin 5, fin 0, fin 0, fin 1⟩])
        (fin 5) (fin 5) ∧
    JNum.abs (wrapDelta (fin 5 - fin (k * c - 5)) (fin (k * c)) (fin (k * c) / 2))
      = fin 10 ∧
    JNum.abs (wrapDelta (fin (k * c - 5) - fin 5) (fin (k * c)) (fin (k * c) / 2))
      = fin 10 := by
  have hk2 : (2 : ℚ) ≤ (k : ℚ) := by exact_mod_cast hk
  have hc0 : c ≠ 0 := by linarith
  have hkc20 : (20 : ℚ) ≤ (k : ℚ) * c := by nlinarith
  have hcsz : (mkHash (fin c) (fin (k * c)) (fin h2)).cellSize = fin c := by
    show JNum.jmax (fin c) 1 = fin c
    rw [jnum_one, jmax_fin, max_eq_left (by linarith)]
  have hcw : (mkHash (fin c) (fin (k * c)) (fin h2)).cellsW = fin (k : ℚ) := by
    show JNum.jmax 1 (JNum.ceil (fin ((k : ℚ) * c) / JNum.jmax (fin c) 1)) = fin (k : ℚ)
    rw [jnum_one, jmax_fin, max_eq_left (by linarith), fin_div _ hc0,
      show (k : ℚ) * c / c = (k : ℚ) from by field_simp]
    show JNum.jmax (fin 1) (fin ((⌈(k : ℚ)⌉ : ℤ) : ℚ)) = fin (k : ℚ)
    rw [Int.ceil_natCast, jmax_fin]
    exact congrArg fin (by push_cast; exact max_eq_right (by exact_mod_cast (by omega : 1 ≤ k)))
  have hchh : (mkHash (fin c) (fin (k * c)) (fin h2)).cellsH =
      fin (max 1 ((⌈h2 / c⌉ : ℤ) : ℚ)) := by
    show JNum.jmax 1 (JNum.ceil (fin h2 / JNum.jmax (fin c) 1)) = _
    rw [jnum_one, jmax_fin, max_eq_left (by linarith), fin_div _ hc0]
    show JNum.jmax (fin 1) (fin ((⌈h2 / c⌉ : ℤ) : ℚ)) = _
    rw [jmax_fin]
  have hflAq : (⌊((k : ℚ) * c - 5) / c⌋ : ℤ) = (k : ℤ) - 1 := by
    rw [sub_div, mul_div_cancel_right₀ _ hc0, sub_eq_add_neg, add_comm,
      Int.floor_add_nat]
    have hm1 : ⌊-((5 : ℚ) / c)⌋ = -1 := by
      rw [Int.floor_eq_iff]
      constructor
      · have hle : (5 : ℚ) / c ≤ 1 := by
          rw [div_le_one (by linarith)]
          linarith
        push_cast
        linarith
      · have hpos : (0 : ℚ) < 5 / c := by positivity
        push_cast
        linarith
    rw [hm1]
    omega
  have hfl5q : (⌊(5 : ℚ) / c⌋ : ℤ) = 0 := by
    rw [Int.floor_eq_zero_iff, Set.mem_Ico]
    constructor
    · positivity
    · rw [div_lt_one (by linarith)]
      linarith
  have hflAJ : JNum.floor (fin ((k : ℚ) * c - 5) /
      (mkHash (fin c) (fin (k * c)) (fin h2)).cellSize) =
      fin (((k : ℤ) - 1 : ℤ) : ℚ) := by
    rw [hcsz, fin_div _ hc0]
    show fin ((⌊((k : ℚ) * c - 5) / c⌋ : ℤ) : ℚ) = fin (((k : ℤ) - 1 : ℤ) : ℚ)
    rw [hflAq]
  have hfl5J : JNum.floor (fin (5 : ℚ) /
      (mkHash (fin c) (fin (k * c)) (fin h2)).cellSize) = fin 0 := by
    rw [hcsz, fin_div _ hc0]
    show fin ((⌊(5 : ℚ) / c⌋ : ℤ) : ℚ) = fin 0
    rw [hfl5q]
    norm_num
  have hgrid : buildGrid (mkHash (fin c) (fin (k * c)) (fin h2))
        [⟨fin (k * c - 5), fin 5, fin 0, fin 0, fin 0⟩,
         ⟨fin 5, fin 5, fin 0, fin 0, fin 1⟩] =
      gridAdd (gridAdd [] (cellKey (fin (((k : ℤ) - 1 : ℤ) : ℚ)) (fin 0)) 0)
        (cellKey (fin 0) (fin 0)) 1 := by
    show gridAdd (gridAdd []
        (cellKey (JNum.floor (fin ((k : ℚ) * c - 5) /
            (mkHash (fin c) (fin (k * c)) (fin h2)).cellSize))
          (JNum.floor (fin (5 : ℚ) /
            (mkHash (fin c) (fin (k * c)) (fin h2)).cellSize))) 0)
        (cellKey (JNum.floor (fin (5 : ℚ) /
            (mkHash (fin c) (fin (k * c)) (fin h2)).cellSize))
          (JNum.floor (fin (5 : ℚ) /
            (mkHash (fin c) (fin (k * c)) (fin h2)).cellSize))) 1 = _
    rw [hflAJ, hfl5J]
  have h1B : 1 ∈ gridGet (gridAdd (gridAdd []
        (cellKey (fin (((k : ℤ) - 1 : ℤ) : ℚ)) (fin 0)) 0)
        (cellKey (fin 0) (fin 0)) 1) (cellKey (fin 0) (fin 0)) := by
    rw [gridGet_gridAdd_self]
    simp
  have h0A : 0 ∈ gridGet (gridAdd (gridAdd []
        (cellKey (fin (((k : ℤ) - 1 : ℤ) : ℚ)) (fin 0)) 0)
        (cellKey (fin 0) (fin 0)) 1) (cellKey (fin (((k : ℤ) - 1 : ℤ) : ℚ)) (fin 0)) := by
    by_cases hAB : cellKey (fin (((k : ℤ) - 1 : ℤ) : ℚ)) (fin 0) = cellKey (fin 0) (fin 0)
    · rw [← hAB, gridGet_gridAdd_self, gridGet_gridAdd_self, gridGet_nil]
      simp
    · rw [gridGet_gridAdd_other _ 1 hAB, gridGet_gridAdd_self, gridGet_nil]
      simp
  have hmH1 : ¬ max 1 ((⌈h2 / c⌉ : ℤ) : ℚ) ≤ 0 + 0 := by
    intro hcon
    have := le_max_left 1 ((⌈h2 / c⌉ : ℤ) : ℚ)
    linarith
  refine ⟨?_, ?_, ?_, ?_⟩
  · rw [hgrid]
    simp only [getNearby]
    refine List.mem_flatMap.2 ⟨1, by norm_num, List.mem_flatMap.2 ⟨0, by norm_num, ?_⟩⟩
    rw [hflAJ, hfl5J, hcw, hchh, fin_add, fin_add, wrapCell_fin, wrapCell_fin]
    rw [if_neg (show ¬((((k : ℤ) - 1 : ℤ) : ℚ) + 1 < 0) from by push_cast; linarith)]
    rw [if_pos (show (k : ℚ) ≤ (((k : ℤ) - 1 : ℤ) : ℚ) + 1 from by push_cast; linarith)]
    rw [if_neg (show ¬((0 : ℚ) + 0 < 0) from by norm_num), if_neg hmH1]
    rw [show (((k : ℤ) - 1 : ℤ) : ℚ) + 1 - (k : ℚ) = 0 from by push_cast; ring,
      show (0 : ℚ) + 0 = 0 from by norm_num]
    exact h1B
  · rw [hgrid]
    simp only [getNearby]
    refine List.mem_flatMap.2 ⟨-1, by norm_num, List.mem_flatMap.2 ⟨0, by norm_num, ?_⟩⟩
    rw [hfl5J, hcw, hchh, fin_add, fin_add, wrapCell_fin, wrapCell_fin]
    rw [if_pos (show (0 : ℚ) + -1 < 0 from by norm_num)]
    rw [if_neg (show ¬((0 : ℚ) + 0 < 0) from by norm_num), if_neg hmH1]
    rw [show (0 : ℚ) + -1 + (k : ℚ) = (((k : ℤ) - 1 : ℤ) : ℚ) from by push_cast; ring,
      show (0 : ℚ) + 0 = 0 from by norm_num]
    exact h0A
  · rw [fin_sub, jnum_two, fin_div _ (by norm_num : (2 : ℚ) ≠ 0), wrapDelta]
    rw [JNum.gt, lt_fin]
    rw [if_neg (show ¬(decide ((k : ℚ) * c / 2 < 5 - ((k : ℚ) * c - 5)) = true) from by
      simp only [decide_eq_true_eq]
      intro hcon
      linarith)]
    rw [fin_neg, lt_fin]
    by_cases hlt : 5 - ((k : ℚ) * c - 5) < -((k : ℚ) * c / 2)
    · rw [if_pos (by simpa using hlt), fin_add,
        show (5 : ℚ) - ((k : ℚ) * c - 5) + (k : ℚ) * c = 10 from by ring, abs_fin]
      norm_num
    · rw [if_neg (by simpa using hlt)]
      have hkc : (k : ℚ) * c = 20 := by
        have hge : -((k : ℚ) * c / 2) ≤ 5 - ((k : ℚ) * c - 5) := le_of_not_lt hlt
        linarith
      rw [abs_fin, show (5 : ℚ) - ((k : ℚ) * c - 5) = -10 from by rw [hkc]; norm_num]
      norm_num
  · rw [fin_sub, jnum_two, fin_div _ (by norm_num : (2 : ℚ) ≠ 0), wrapDelta]
    rw [JNum.gt, lt_fin]
    by_cases hgt : (k : ℚ) * c / 2 < (k : ℚ) * c - 5 - 5
    · rw [if_pos (by simpa using hgt), fin_sub,
        show (k : ℚ) * c - 5 - 5 - (k : ℚ) * c = -10 from by ring, abs_fin]
      norm_num
    · rw [if_neg (by simpa using hgt)]
      have hkc : (k : ℚ) * c = 20 := by
        have hge : (k : ℚ) * c - 5 - 5 ≤ (k : ℚ) * c / 2 := le_of_not_lt hgt
        linarith
      rw [fin_neg, lt_fin]
      rw [if_neg (show ¬(decide ((k : ℚ) * c - 5 - 5 < -((k : ℚ) * c / 2)) = true) from by
        simp only [decide_eq_true_eq]
        intro hcon
        linarith)]
      rw [abs_fin, show (k : ℚ) * c - 5 - 5 = 10 from by rw [hkc]; norm_num]
      norm_num

/-- Witness for C6 amended: width 30 = 3 cells of size 10, height 50. -/
theorem C6_amended_witness :
    1 ∈ getNearby (mkHash (fin 10) (fin (((3 : ℕ) : ℚ) * 10)) (fin 50))
        (buildGrid (mkHash (fin 10) (fin (((3 : ℕ) : ℚ) * 10)) (fin 50))
          [⟨fin (((3 : ℕ) : ℚ) * 10 - 5), fin 5, fin 0, fin 0, fin 0⟩,
           ⟨fin 5, fin 5, fin 0, fin 0, fin 1⟩])
        (fin (((3 : ℕ) : ℚ) * 10 - 5)) (fin 5) ∧
    0 ∈ getNearby (mkHash (fin 10) (fin (((3 : ℕ) : ℚ) * 10)) (fin 50))
        (buildGrid (mkHash (fin 10) (fin (((3 : ℕ) : ℚ) * 10)) (fin 50))
          [⟨fin (((3 : ℕ) : ℚ) * 10 - 5), fin 5, fin 0, fin 0, fin 0⟩,
           ⟨fin 5, fin 5, fin 0, fin 0, fin 1⟩])
        (fin 5) (fin 5) ∧
    JNum.abs (wrapDelta (fin 5 - fin (((3 : ℕ) : ℚ) * 10 - 5))
        (fin (((3 : ℕ) : ℚ) * 10)) (fin (((3 : ℕ) : ℚ) * 10) / 2)) = fin 10 ∧
    JNum.abs (wrapDelta (fin (((3 : ℕ) : ℚ) * 10 - 5) - fin 5)
        (fin (((3 : ℕ) : ℚ) * 10)) (fin (((3 : ℕ) : ℚ) * 10) / 2)) = fin 10 :=
  C6_amended 3 10 50 (by norm_num) (by norm_num) (by norm_num)

/-! ## C8: energy sampler bookkeeping -/

theorem lastN_length (n : ℕ) (l : List α) : (lastN n l).length = min l.length n := by
  rw [lastN, List.length_drop]
  omega

theorem pushTrim_lastN (L : List (List JNum)) (x : List JNum) :
    pushTrim (lastN 200 L) x = lastN 200 (L ++ [x]) := by
  show (if 200 < (lastN 200 L ++ [x]).length then (lastN 200 L ++ [x]).drop 1
    else lastN 200 L ++ [x]) = lastN 200 (L ++ [x])
  by_cases hlen : L.length < 200
  · rw [if_neg]
    · rw [lastN, lastN, List.length_append, List.length_singleton,
        show L.length - 200 = 0 from by omega,
        show L.length + 1 - 200 = 0 from by omega,
        List.drop_zero, List.drop_zero]
    · rw [List.length_append, lastN_length]
      simp only [List.length_singleton]
      omega
  · rw [if_pos]
    · rw [lastN, lastN, List.length_append, List.length_singleton,
        List.drop_append_of_le_length (by rw [List.length_drop]; omega),
        List.drop_drop,
        List.drop_append_of_le_length (by omega),
        show L.length - 200 + 1 = L.length + 1 - 200 from by omega]
    · rw [List.length_append, lastN_length]
      simp only [List.length_singleton]
      omega

theorem stepAssemble_counter (sq : ℚ → ℚ) (rng : ℕ → ℚ) (hc : SpatialHashCfg)
    (s : SimState) (pcs : List (Particle × ℕ)) :
    (stepAssemble sq rng hc s pcs).energySampleCounter =
      if 6 ≤ s.energySampleCounter + 1 then 0 else s.energySampleCounter + 1 := by
  show (if 6 ≤ s.energySampleCounter + 1
      then (pushTrim s.energyHistory
        (sampleSnapshot sq (stepAssemble sq rng hc s pcs).particles), 0)
      else (s.energyHistory, s.energySampleCounter + 1)).2 = _
  by_cases hce : 6 ≤ s.energySampleCounter + 1
  · rw [if_pos hce, if_pos hce]
  · rw [if_neg hce, if_neg hce]

theorem stepAssemble_history (sq : ℚ → ℚ) (rng : ℕ → ℚ) (hc : SpatialHashCfg)
    (s : SimState) (pcs : List (Particle × ℕ)) :
    (stepAssemble sq rng hc s pcs).energyHistory =
      if 6 ≤ s.energySampleCounter + 1
      then pushTrim s.energyHistory
        (sampleSnapshot sq (stepAssemble sq rng hc s pcs).particles)
      else s.energyHistory := by
  show (if 6 ≤ s.energySampleCounter + 1
      then (pushTrim s.energyHistory
        (sampleSnapshot sq (stepAssemble sq rng hc s pcs).particles), 0)
      else (s.energyHistory, s.energySampleCounter + 1)).1 = _
  by_cases hce : 6 ≤ s.energySampleCounter + 1
  · rw [if_pos hce, if_pos hce]
  · rw [if_neg hce, if_neg hce]

theorem typeIdx_none_beq {x : JNum} {t : ℕ} (h : typeIdx x = none)
    (ht : t < PARTICLE_TYPES) : (x == fin ((t : ℕ) : ℚ)) = false := by
  by_contra hcon
  rw [Bool.not_eq_false] at hcon
  have hx : x = fin ((t : ℕ) : ℚ) := eq_of_beq hcon
  rw [hx] at h
  simp only [typeIdx] at h
  rw [if_pos] at h
  · exact Option.noConfusion h
  · refine ⟨Rat.den_natCast t, ?_, ?_⟩
    · rw [Rat.num_natCast]
      exact Int.natCast_nonneg t
    · rw [Rat.num_natCast]
      exact_mod_cast ht

theorem typeIdx_some_eq {x : JNum} {t0 : ℕ} (h : typeIdx x = some t0) :
    x = fin ((t0 : ℕ) : ℚ) ∧ t0 < PARTICLE_TYPES := by
  cases x with
  | fin q =>
    simp only [typeIdx] at h
    split at h
    · rename_i hcond
      obtain ⟨hden, hnum0, hnum6⟩ := hcond
      injection h with h0
      subst h0
      constructor
      · congr 1
        have hq : ((q.num : ℤ) : ℚ) = q := (Rat.den_eq_one_iff q).1 hden
        have h2q : ((q.num.toNat : ℕ) : ℚ) = ((q.num : ℤ) : ℚ) := by
          rw [show ((q.num.toNat : ℕ) : ℚ) = ((q.num.toNat : ℤ) : ℚ) from by
            push_cast
            ring]
          rw [Int.toNat_of_nonneg hnum0]
        rw [h2q]
        exact hq.symm
      · have h6 : q.num < ((6 : ℕ) : ℤ) := hnum6
        omega
    · exact Option.noConfusion h
  | nan => exact Option.noConfusion h
  | inf => exact Option.noConfusion h
  | ninf => exact Option.noConfusion h

theorem sampleFold_spec (sq : ℚ → ℚ) :
    ∀ (ps : List Particle) (ce : List ℚ × List JNum),
      ce.1.length = PARTICLE_TYPES → ce.2.length = PARTICLE_TYPES →
      ∀ t : ℕ, t < PARTICLE_TYPES →
      (ps.foldl (fun (ce : List ℚ × List JNum) p =>
        match typeIdx p.type with
        | some t2 => (ce.1.set t2 (ce.1.getD t2 0 + 1),
                      ce.2.set t2 (ce.2.getD t2 0 + speedOf sq p))
        | none => ce) ce).1.getD t 0
          = ce.1.getD t 0 +
            (((ps.filter (fun p => p.type == fin ((t : ℕ) : ℚ))).length : ℕ) : ℚ) ∧
      (ps.foldl (fun (ce : List ℚ × List JNum) p =>
        match typeIdx p.type with
        | some t2 => (ce.1.set t2 (ce.1.getD t2 0 + 1),
                      ce.2.set t2 (ce.2.getD t2 0 + speedOf sq p))
        | none => ce) ce).2.getD t 0
          = (ps.filter (fun p => p.type == fin ((t : ℕ) : ℚ))).foldl
              (fun a p => a + speedOf sq p) (ce.2.getD t 0) := by
  intro ps
  induction ps with
  | nil =>
    intro ce h1 h2 t ht
    simp
  | cons p rest ih =>
    intro ce h1 h2 t ht
    cases htp : typeIdx p.type with
    | none =>
      have hbeq : (p.type == fin ((t : ℕ) : ℚ)) = false := typeIdx_none_beq htp ht
      simp only [List.foldl_cons, htp]
      rw [List.filter_cons_of_neg (by simp [hbeq])]
      exact ih ce h1 h2 t ht
    | some t0 =>
      obtain ⟨hxeq, ht0⟩ := typeIdx_some_eq htp
      simp only [List.foldl_cons, htp]
      have hlen1 : (ce.1.set t0 (ce.1.getD t0 0 + 1)).length = PARTICLE_TYPES := by
        rw [List.length_set]
        exact h1
      have hlen2 : (ce.2.set t0 (ce.2.getD t0 0 + speedOf sq p)).length
          = PARTICLE_TYPES := by
        rw [List.length_set]
        exact h2
      have ihc := ih (ce.1.set t0 (ce.1.getD t0 0 + 1),
        ce.2.set t0 (ce.2.getD t0 0 + speedOf sq p)) hlen1 hlen2 t ht
      by_cases htt : t = t0
      · subst htt
        have hbeq : (p.type == fin ((t : ℕ) : ℚ)) = true := by
          rw [hxeq]
          exact beq_self_eq_true _
        rw [List.filter_cons_of_pos (by simpa using hbeq)]
        constructor
        · rw [ihc.1, List.getD_eq_getElem?_getD,
            List.getElem?_set_self (by rw [h1]; exact ht), Option.getD_some,
            List.length_cons]
          push_cast
          ring
        · rw [ihc.2, List.getD_eq_getElem?_getD,
            List.getElem?_set_self (by rw [h2]; exact ht), Option.getD_some,
            List.foldl_cons]
      · have hbeq : (p.type == fin ((t : ℕ) : ℚ)) = false := by
          rw [hxeq]
          rw [beq_eq_false_iff_ne]
          intro hcon
          apply htt
          have hqq : ((t0 : ℕ) : ℚ) = ((t : ℕ) : ℚ) := by injection hcon
          exact_mod_cast hqq.symm
        rw [List.filter_cons_of_neg (by simp [hbeq])]
        constructor
        · rw [ihc.1]
          simp only [List.getD_eq_getElem?_getD]
          rw [List.getElem?_set_ne (fun hcon => htt hcon.symm)]
        · rw [ihc.2]
          simp only [List.getD_eq_getElem?_getD]
          rw [List.getElem?_set_ne (fun hcon => htt hcon.symm)]

/-- The snapshot the source computes by a single fold over the
population coincides with the per-species filter description of the
spec's words. -/
theorem sampleSnapshot_eq_spec (sq : ℚ → ℚ) (ps : List Particle) :
    sampleSnapshot sq ps = snapshotSpec sq ps := by
  rw [sampleSnapshot, snapshotSpec]
  apply List.map_congr_left
  intro t htmem
  rw [List.mem_range] at htmem
  obtain ⟨hcount, hsum⟩ := sampleFold_spec sq ps
    (List.replicate PARTICLE_TYPES (0 : ℚ), List.replicate PARTICLE_TYPES (0 : JNum))
    (by rw [List.length_replicate]) (by rw [List.length_replicate]) t htmem
  simp only [List.getD_eq_getElem?_getD, List.getElem?_replicate_of_lt htmem,
    Option.getD_some, zero_add, jnum_zero] at hcount hsum ⊢
  rw [hcount, hsum]
  by_cases hlen : (ps.filter (fun p => p.type == fin ((t : ℕ) : ℚ))).length = 0
  · rw [hlen]
    norm_num
  · rw [if_neg hlen, if_pos (by exact_mod_cast Nat.pos_of_ne_zero hlen)]
    rw [List.foldl_map]

/-- With mutation disabled, every particle of the assembled step output
keeps the type of some pre-step particle. -/
theorem stepAssemble_types (sq : ℚ → ℚ) (rng : ℕ → ℚ) (hc : SpatialHashCfg)
    (s : SimState) (pcs : List (Particle × ℕ))
    (hmut : s.config.mutationEnabled = false)
    (hpcs : forcePhase sq (stepCtxOf s) s.particles (buildGrid hc s.particles) hc
      s.particles.enum = .ok pcs) :
    ∀ p ∈ (stepAssemble sq rng hc s pcs).particles,
      ∃ q ∈ s.particles, p.type = q.type := by
  rw [stepAssemble_particles sq rng hc s pcs hmut]
  intro p hp
  obtain ⟨q, hq, hqt⟩ := movePhase_type_mem rng (stepCtxOf s).w (stepCtxOf s).h
    (stepCtxOf s).maxVel (pcs.map Prod.fst) s.rngIdx 0 p hp
  obtain ⟨pcq, hpcq, hqe⟩ := List.mem_map.1 hq
  obtain ⟨ip, hip, hfoq⟩ := forcePhase_mem sq (stepCtxOf s) s.particles
    (buildGrid hc s.particles) hc s.particles.enum pcs hpcs pcq hpcq
  refine ⟨ip.2, List.getElem?_mem (List.mem_enum_iff_getElem?.1 hip), ?_⟩
  rw [hqt, ← hqe]
  exact forceOne_type hfoq

/-- One step in a dimensioned mutation-free kernel: the step completes,
the step-relevant fields are preserved, types persist, and the energy
counter and history evolve by the sample-every-6 discipline. -/
theorem update_energy (sq : ℚ → ℚ) (rng : ℕ → ℚ) {t : SimState}
    {hc : SpatialHashCfg} {w : ℚ}
    (hhash : t.hash = some hc) (hw : t.width = fin w) (hw0 : w ≠ 0)
    (hty : typesOk t.config.rules t.particles)
    (hmut : t.config.mutationEnabled = false) :
    ∃ t2, update sq rng t = .ok t2 ∧
      t2.config = t.config ∧ t2.width = t.width ∧ t2.height = t.height ∧
      t2.hash = t.hash ∧ t2.mouse = t.mouse ∧
      (∀ p ∈ t2.particles, ∃ q ∈ t.particles, p.type = q.type) ∧
      t2.energySampleCounter = (if 6 ≤ t.energySampleCounter + 1 then 0
        else t.energySampleCounter + 1) ∧
      t2.energyHistory = (if 6 ≤ t.energySampleCounter + 1
        then pushTrim t.energyHistory (sampleSnapshot sq t2.particles)
        else t.energyHistory) := by
  have hwne : ¬ t.width = fin 0 := by
    rw [hw]
    intro hcontra
    have hweq : w = 0 := by injection hcontra
    exact hw0 hweq
  obtain ⟨pcs, hpcs⟩ := forcePhase_ok sq (stepCtxOf t) t.particles
    (buildGrid hc t.particles) hc t.particles.enum
    (fun ip hip => hty ip.2 (List.getElem?_mem (List.mem_enum_iff_getElem?.1 hip)))
  have hupd : update sq rng t = .ok (stepAssemble sq rng hc t pcs) := by
    rw [update, hhash]
    simp only []
    rw [if_neg hwne, hpcs]
    rfl
  exact ⟨stepAssemble sq rng hc t pcs, hupd, rfl, rfl, rfl, rfl, rfl,
    stepAssemble_types sq rng hc t pcs hmut hpcs,
    stepAssemble_counter sq rng hc t pcs,
    stepAssemble_history sq rng hc t pcs⟩

/-- C8: confirmed (on a fresh mutation-free kernel with valid species).
Exactly every 6th step appends one snapshot: after `n` steps the sample
counter is `n % 6`, `getEnergyHistory` is the last (at most) 200 of the
chronological oldest-first snapshot sequence, so its length is
`min (n / 6) 200` and never exceeds 200; and the snapshot the fold in
`sampleEnergy` computes is exactly the per-species sum-over-count (or 0)
of the spec's words. -/
theorem C8_energy_sampler (sq : ℚ → ℚ) (rng : ℕ → ℚ) (s : SimState)
    {hc : SpatialHashCfg} {w : ℚ}
    (hhash : s.hash = some hc) (hw : s.width = fin w) (hw0 : w ≠ 0)
    (hty : typesOk s.config.rules s.particles)
    (hmut : s.config.mutationEnabled = false)
    (hec : s.energySampleCounter = 0) (heh : s.energyHistory = [])
    (n : ℕ) :
    (∃ t, stepN sq rng n s = some t ∧
      t.energySampleCounter = n % 6 ∧
      getEnergyHistory t = lastN 200 (chronSnaps sq rng s n) ∧
      (getEnergyHistory t).length = min (n / 6) 200 ∧
      (getEnergyHistory t).length ≤ 200) ∧
    (∀ ps, sampleSnapshot sq ps = snapshotSpec sq ps) := by
  refine ⟨?_, fun ps => sampleSnapshot_eq_spec sq ps⟩
  have main : ∀ m, ∃ t2, stepN sq rng m s = some t2 ∧
      t2.config = s.config ∧ t2.width = s.width ∧ t2.height = s.height ∧
      t2.hash = s.hash ∧ t2.mouse = s.mouse ∧
      typesOk s.config.rules t2.particles ∧
      t2.energySampleCounter = m % 6 ∧
      t2.energyHistory = lastN 200 (chronSnaps sq rng s m) ∧
      (chronSnaps sq rng s m).length = m / 6 := by
    intro m
    induction m with
    | zero =>
      refine ⟨s, rfl, rfl, rfl, rfl, rfl, rfl, hty, by rw [hec], ?_, rfl⟩
      rw [heh, chronSnaps]
      rfl
    | succ m ih =>
      obtain ⟨t2, hstep, hcfg, hwid, hhei, hha, hmou, htyt, hcnt, hhist, hclen⟩ := ih
      obtain ⟨t3, hupd, hcfg3, hwid3, hhei3, hha3, hmou3, htymem, hcnt3, hhist3⟩ :=
        update_energy sq rng (by rw [hha]; exact hhash) (by rw [hwid]; exact hw) hw0
          (by rw [hcfg]; exact htyt) (by rw [hcfg]; exact hmut)
      have hstep3 : stepN sq rng (m + 1) s = some t3 := by
        simp only [stepN]
        rw [hstep]
        show (update sq rng t2).toOption = some t3
        rw [hupd]
        rfl
      have hty3 : typesOk s.config.rules t3.particles := by
        intro p hp
        obtain ⟨q, hq, hqt⟩ := htymem p hp
        rw [hqt]
        exact htyt q hq
      have hm6 : m % 6 < 6 := Nat.mod_lt m (by norm_num)
      have hchron : chronSnaps sq rng s (m + 1) = chronSnaps sq rng s m ++
          (if (m + 1) % 6 = 0 then [sampleSnapshot sq t3.particles] else []) := by
        rw [chronSnaps, hstep3]
      by_cases hs5 : m % 6 = 5
      · have hs6 : 6 ≤ t2.energySampleCounter + 1 := by
          rw [hcnt, hs5]
        have hm1 : (m + 1) % 6 = 0 := by omega
        refine ⟨t3, hstep3, by rw [hcfg3, hcfg], by rw [hwid3, hwid],
          by rw [hhei3, hhei], by rw [hha3, hha], by rw [hmou3, hmou], hty3,
          ?_, ?_, ?_⟩
        · rw [hcnt3, if_pos hs6, hm1]
        · rw [hhist3, if_pos hs6, hhist, pushTrim_lastN, hchron, hm1, if_pos rfl]
        · rw [hchron, hm1, if_pos rfl, List.length_append, hclen,
            List.length_singleton]
          omega
      · have hs6 : ¬ 6 ≤ t2.energySampleCounter + 1 := by
          rw [hcnt]
          omega
        have hm1 : (m + 1) % 6 = m % 6 + 1 := by omega
        have hm1ne : ¬ (m + 1) % 6 = 0 := by omega
        refine ⟨t3, hstep3, by rw [hcfg3, hcfg], by rw [hwid3, hwid],
          by rw [hhei3, hhei], by rw [hha3, hha], by rw [hmou3, hmou], hty3,
          ?_, ?_, ?_⟩
        · rw [hcnt3, if_neg hs6, hcnt, hm1]
        · rw [hhist3, if_neg hs6, hhist, hchron, if_neg hm1ne, List.append_nil]
        · rw [hchron, if_neg hm1ne, List.append_nil, hclen]
          omega
  obtain ⟨t2, hstep, _, _, _, _, _, _, hcnt, hhist, hclen⟩ := main n
  refine ⟨t2, hstep, hcnt, ?_, ?_, ?_⟩
  · rw [getEnergyHistory]
    exact hhist
  · rw [getEnergyHistory, hhist, lastN_length, hclen]
  · rw [getEnergyHistory, hhist, lastN_length]
    omega

/-- Witness for C8 on the single coasting particle, six steps. -/
theorem C8_energy_sampler_witness :
    (∃ t, stepN sqN rngZero 6 stCoast = some t ∧
      t.energySampleCounter = 6 % 6 ∧
      getEnergyHistory t = lastN 200 (chronSnaps sqN rngZero stCoast 6) ∧
      (getEnergyHistory t).length = min (6 / 6) 200 ∧
      (getEnergyHistory t).length ≤ 200) ∧
    (∀ ps, sampleSnapshot sqN ps = snapshotSpec sqN ps) :=
  C8_energy_sampler sqN rngZero stCoast rfl rfl (by norm_num)
    (by intro p hp; fin_cases hp <;> rfl) rfl rfl rfl 6

/-- Witness for C4 amended: growing the two-particle fixture to four. -/
theorem C4_amended_witness :
    (∀ s2, update sqN rngZero stRepel = .ok s2 →
        s2.particles.length = stRepel.particles.length) ∧
    (updateConfig rngZero stRepel cfgFour).particles.length = cfgFour.particleCount ∧
    (stRepel.particles.length ≤ cfgFour.particleCount →
      (updateConfig rngZero stRepel cfgFour).particles.take stRepel.particles.length
          = stRepel.particles ∧
      ∀ p ∈ (updateConfig rngZero stRepel cfgFour).particles.drop stRepel.particles.length,
        p.vx = fin 0 ∧ p.vy = fin 0) :=
  C4_amended sqN rngZero stRepel cfgFour (by decide) (by decide)

end ParticleLife
